import Mathlib

/-!
# The `rpcClient` sample of grpc-go-polaris

A shallow embedding of `sample/rpcClient/main.go`: the target pattern
`regexPolaris`, the metadata splitter `parseMetadata`, the argument processing
`processArgs` and the run of `main` as a trace of its external actions.

Go strings are modelled by their sequence of characters (valid UTF-8 text:
`regexp` reads a string character by character and `strings.Split` cuts at
one-byte separators, so both agree with the byte-level behaviour on such text),
Go's `int` and `time.Duration` by `Int` (64-bit, with explicit wrap-around where
the program multiplies), a Go `map[string]string` by an association list
without duplicate keys, and a `(value, error)` result by a pair whose second
component is `none` for a `nil` error. The external libraries (the SDK, the
resolver, the dialer and the generated stub) are an environment that answers
each call; a run of `main` is the list of the calls it makes and the way it
ends.
-/

namespace RpcClient

/-- A Go string, as the sequence of its characters. -/
abbrev Str := List Char

/-! ## Library functions used by the sample -/

/-- Go `strings.Split(s, sep)` for a one-character separator: the substrings of
`s` between the occurrences of `sep`, one more than there are occurrences. -/
def Split : Str → Char → List Str
  | [], _ => [[]]
  | c :: cs, sep =>
    if c = sep then [] :: Split cs sep
    else
      match Split cs sep with
      | [] => [[c]]
      | t :: ts => (c :: t) :: ts

/-- A Go `map[string]string`: its entries, no key twice. -/
abbrev GoMap := List (Str × Str)

/-- The assignment `m[k] = v`: an entry of key `k` is replaced. -/
def GoMap.set (m : GoMap) (k v : Str) : GoMap :=
  m.filter (fun e => e.1 ≠ k) ++ [(k, v)]

/-- The lookup `v, ok := m[k]`: `none` when the key is absent. -/
def GoMap.get : GoMap → Str → Option Str
  | [], _ => none
  | e :: m, k => if e.1 = k then some e.2 else GoMap.get m k

/-- Go error values built by the sample and by `strconv`. -/
inductive GoError where
  /-- The value of `fmt.Errorf(format, arg)`. -/
  | errorf (format : String) (arg : Str)
  /-- A `*strconv.NumError` with fields `Func`, `Num`, `Err`. -/
  | numError (func : String) (num : Str) (err : String)
  /-- An error handed back by an external library (SDK construction, dial, call). -/
  | external (msg : String)
  /-- A run-time error of the Go runtime. -/
  | runtime (msg : String)
  deriving DecidableEq, Repr

/-- The text of `strconv.ErrSyntax`. -/
def ErrSyntax : String := "invalid syntax"

/-- The text of `strconv.ErrRange`. -/
def ErrRange : String := "value out of range"

/-- Size in bits of Go's `int` (a 64-bit platform). -/
def intSize : Nat := 64

/-- The digit loop of `strconv.ParseUint(s, 10, 64)`: `n` is the value read so
far; the result is the value and the kind of error, if any. A character that is
no digit is a syntax error; `n ≥ cutoff` (so `n * 10` overflows `uint64`) or
`n * 10 + d > maxVal` is a range error. -/
def ParseUint.loop : Str → Nat → Nat × Option String
  | [], n => (n, none)
  | c :: cs, n =>
    if c.isDigit then
      if n ≥ (2 ^ 64 - 1) / 10 + 1 then (2 ^ 64 - 1, some ErrRange)
      else if n * 10 + (c.toNat - 48) > 2 ^ 64 - 1 then (2 ^ 64 - 1, some ErrRange)
      else ParseUint.loop cs (n * 10 + (c.toNat - 48))
    else (0, some ErrSyntax)

/-- Go `strconv.ParseUint(s, 10, 64)`, the error given by its kind. -/
def ParseUint (s : Str) : Nat × Option String :=
  if s = [] then (0, some ErrSyntax) else ParseUint.loop s 0

/-- Go `strconv.Atoi(s)`, that is `ParseInt(s, 10, 0)` with the error's `Func`
set to `Atoi`: an optional sign, then `ParseUint`, then the range check against
`1 << (intSize - 1)`. -/
def Atoi (s : Str) : Int × Option GoError :=
  if s = [] then (0, some (.numError "Atoi" s ErrSyntax))
  else
    let neg : Bool := s.head? = some '-'
    let s1 : Str := if s.head? = some '+' ∨ s.head? = some '-' then s.tail else s
    let un := ParseUint s1
    if un.2 ≠ none ∧ un.2 ≠ some ErrRange then (0, some (.numError "Atoi" s ErrSyntax))
    else if neg = false ∧ un.1 ≥ 2 ^ (intSize - 1) then
      (2 ^ (intSize - 1) - 1, some (.numError "Atoi" s ErrRange))
    else if neg = true ∧ un.1 > 2 ^ (intSize - 1) then
      (-(2 ^ (intSize - 1)), some (.numError "Atoi" s ErrRange))
    else (if neg then -(un.1 : Int) else (un.1 : Int), none)

/-! ## Regular expressions -/

/-- Syntax of the regular expressions the pattern of `regexPolaris` is built
from (Go `regexp`, RE2 syntax, no flags). -/
inductive Regex where
  /-- The empty expression. -/
  | empty
  /-- The assertion `^`: at the beginning of the text. -/
  | beginText
  /-- The assertion `$`: at the end of the text. -/
  | endText
  /-- A literal character. -/
  | lit (c : Char)
  /-- A character class `[...]`, as its ranges (a single character `c` is `(c, c)`). -/
  | cls (ranges : List (Char × Char))
  /-- Concatenation. -/
  | cat (a b : Regex)
  /-- Alternation `a|b`. -/
  | alt (a b : Regex)
  /-- A capturing group `(r)`. -/
  | group (r : Regex)
  /-- Bounded repetition `r{min,max}`. -/
  | rep (r : Regex) (min max : Nat)
  deriving Repr

/-- A literal word, character by character. -/
def Regex.str : Str → Regex
  | [] => .empty
  | c :: cs => .cat (.lit c) (Regex.str cs)

/-- Membership of a character in a class given by its ranges. -/
def inClass (ranges : List (Char × Char)) (c : Char) : Bool :=
  ranges.any (fun r => decide (r.1 ≤ c) && decide (c ≤ r.2))

/-- The ways `step` can be run between `min` and `max` times in a row from
position `pos` with `s` left to read. -/
def repRun (step : Nat → Str → List (Nat × Str)) :
    Nat → Nat → Nat → Str → List (Nat × Str)
  | min, 0, pos, s => if min = 0 then [(pos, s)] else []
  | min, max + 1, pos, s =>
    (if min = 0 then [(pos, s)] else []) ++
      (step pos s).flatMap (fun st => repRun step (min - 1) max st.1 st.2)

/-- All the ways the expression matches a prefix of `s`, the rest of the text
from position `pos`: each result is the position after the match and what is
left to read. -/
def Regex.run : Regex → Nat → Str → List (Nat × Str)
  | .empty, pos, s => [(pos, s)]
  | .beginText, pos, s => if pos = 0 then [(pos, s)] else []
  | .endText, pos, s => if s = [] then [(pos, s)] else []
  | .lit c, pos, s =>
    match s with
    | [] => []
    | d :: rest => if d = c then [(pos + 1, rest)] else []
  | .cls ranges, pos, s =>
    match s with
    | [] => []
    | d :: rest => if inClass ranges d then [(pos + 1, rest)] else []
  | .cat a b, pos, s => (a.run pos s).flatMap (fun st => b.run st.1 st.2)
  | .alt a b, pos, s => a.run pos s ++ b.run pos s
  | .group r, pos, s => r.run pos s
  | .rep r min max, pos, s => repRun (r.run) min max pos s

/-- Go `(*Regexp).MatchString`: the text contains a match of the expression,
starting at any position. -/
def Regex.MatchString (re : Regex) (s : Str) : Bool :=
  (List.range (s.length + 1)).any (fun i => !(re.run i (s.drop i)).isEmpty)

/-- The compiled pattern
`^(Development|Production|Pre-release|Test)/([a-zA-Z0-9_:.-]{1,128})$`. -/
def regexPolaris : Regex :=
  .cat .beginText
    (.cat (.group (.alt (.str "Development".toList)
        (.alt (.str "Production".toList)
          (.alt (.str "Pre-release".toList) (.str "Test".toList)))))
      (.cat (.lit '/')
        (.cat (.group (.rep (.cls [('a', 'z'), ('A', 'Z'), ('0', '9'), ('_', '_'),
            (':', ':'), ('.', '.'), ('-', '-')]) 1 128))
          .endText)))

/-! ## parseMetadata -/

/-- The loop of `parseMetadata` over the tokens, `metadata` the map built so
far: an empty token is skipped, a token that does not split on `:` into exactly
two parts ends the function with an error and a nil map. -/
def parseMetadata.loop : List Str → GoMap → Option GoMap × Option GoError
  | [], metadata => (some metadata, none)
  | str :: rest, metadata =>
    if str.length = 0 then parseMetadata.loop rest metadata
    else
      let metadataKv := Split str ':'
      if metadataKv.length ≠ 2 then
        (none, some (.errorf "invalid kv pair str %s" str))
      else
        parseMetadata.loop rest (metadata.set (metadataKv.getD 0 []) (metadataKv.getD 1 []))

/-- The function `parseMetadata`: the map (`none` for nil) and the error. -/
def parseMetadata (metadataStr : Str) : Option GoMap × Option GoError :=
  let strMetadata := Split metadataStr ','
  parseMetadata.loop strMetadata []

/-! ## processArgs -/

/-- An argument of a formatted log message. -/
inductive FmtArg where
  /-- A string, printed by `%s`. -/
  | str (s : Str)
  /-- An integer, printed by `%d`. -/
  | int (n : Int)
  /-- An error value (`none` for nil), printed by `%v`. -/
  | err (e : Option GoError)
  /-- The response of a call (`none` for nil), printed by `%v`. -/
  | resp (r : Option Str)
  deriving DecidableEq, Repr

/-- A call `log.Fatalf(format, args...)`: the message is logged and the process
exits with status 1, no deferred call being run. -/
structure Fatal where
  /-- The format string. -/
  format : String
  /-- The arguments that fill it. -/
  args : List FmtArg
  deriving DecidableEq, Repr

/-- How a function of the sample ends: it returns, it ends the process through
`log.Fatalf`, or it panics. -/
inductive Outcome (α : Type) where
  /-- Normal return. -/
  | ret (v : α)
  /-- Process exit through `log.Fatalf`. -/
  | fatal (f : Fatal)
  /-- A panic with the given value. -/
  | panic (e : GoError)
  deriving DecidableEq, Repr

/-- The six values `processArgs` returns, in order. -/
structure Args where
  /-- First result, the namespace. -/
  namespace_ : Str
  /-- Second result, the service. -/
  service : Str
  /-- Third result, the target. -/
  target : Str
  /-- Fourth result, the send count. -/
  sendCount : Int
  /-- Fifth result, the send interval. -/
  sendInterval : Int
  /-- Sixth result, the metadata (`none` for nil). -/
  metadata : Option GoMap
  deriving DecidableEq, Repr

/-- The usage message of `processArgs`. -/
def usageFormat : String :=
  "using %s <namespace> <service> <target> <sendCount> <sendInterval> " ++
    "<metadata k1:metadata v1,metadata k2:metadata v2,...>"

/-- The function `processArgs` on the value `osArgs` of `os.Args`. The indexed
reads `params[i]`, `i < 5`, and `os.Args[0]` come after the length checks and are
in range; `params[5]` is read under `len(params) > 5`. -/
def processArgs (osArgs : List Str) : Outcome Args :=
  if osArgs.length < 1 then .panic (.runtime "slice bounds out of range [1:0]")
  else
    let params := osArgs.drop 1
    if params.length < 5 then .fatal ⟨usageFormat, [.str (osArgs.getD 0 [])]⟩
    else
      let namespace_ := params.getD 0 []
      let service := params.getD 1 []
      let target := params.getD 2 []
      if regexPolaris.MatchString target = false then
        .fatal ⟨"using invalid target: %s", [.str (osArgs.getD 0 [])]⟩
      else
        let sendCount := Atoi (params.getD 3 [])
        if sendCount.2 ≠ none then
          .fatal ⟨"fail to convert sendCount %s to int, err %v",
            [.str (params.getD 1 []), .err sendCount.2]⟩
        else
          let sendInterval := Atoi (params.getD 4 [])
          if sendInterval.2 ≠ none then
            .fatal ⟨"fail to convert sendInterval %s to int, err %v",
              [.str (params.getD 2 []), .err sendInterval.2]⟩
          else if params.length > 5 then
            let metadata := parseMetadata (params.getD 5 [])
            if metadata.2 ≠ none then
              .fatal ⟨"fail to parse metadata string %s, err %v",
                [.str (params.getD 3 []), .err metadata.2]⟩
            else .ret ⟨namespace_, service, target, sendCount.1, sendInterval.1, metadata.1⟩
          else .ret ⟨namespace_, service, target, sendCount.1, sendInterval.1, none⟩

/-! ## main -/

/-- Go `time.Millisecond`, in nanoseconds. -/
def Millisecond : Int := 1000000

/-- Go `time.Second`, in nanoseconds. -/
def Second : Int := 1000000000

/-- The value of a 64-bit signed product or sum: `x` wrapped into
`[-2^63, 2^63)`. -/
def wrapInt64 (x : Int) : Int := (x + 2 ^ 63) % 2 ^ 64 - 2 ^ 63

/-- The settings `main` makes on the SDK configuration object. -/
structure Configuration where
  /-- Argument of `SetAddresses`. -/
  addresses : List String
  /-- Argument of `SetConnectTimeout`, in nanoseconds. -/
  connectTimeout : Int
  /-- Argument of `SetEnableRecoverAll`. -/
  enableRecoverAll : Bool
  /-- Argument of `SetChain`, the routers by the names of their constants. -/
  chain : List String
  deriving DecidableEq, Repr

/-- The type `model.ServiceInfo`, the fields `main` sets. -/
structure ServiceInfo where
  /-- Field `Namespace`. -/
  Namespace : Str
  /-- Field `Service`. -/
  Service : Str
  /-- Field `Metadata`. -/
  Metadata : GoMap
  deriving DecidableEq, Repr

/-- The type `polaris.Conf`, the fields `main` sets (the consumer apart). -/
structure Conf where
  /-- Field `SyncInterval`, a `time.Duration` in nanoseconds. -/
  SyncInterval : Int
  /-- Field `Metadata` (`none` for nil). -/
  Metadata : Option GoMap
  /-- Field `SourceService`. -/
  SourceService : ServiceInfo
  /-- Field `HeaderPrefix`. -/
  HeaderPrefix : List String
  deriving DecidableEq, Repr

/-- The external actions of a run of `main`, in the order they are made. -/
inductive Event where
  /-- The call `api.NewConsumerAPIByConfig(configuration)`. -/
  | newConsumerAPIByConfig (c : Configuration)
  /-- The call `polaris.Init(conf)`. -/
  | polarisInit (conf : Conf)
  /-- The call `grpc.DialContext(ctx, target, ...)`. -/
  | dialContext (target : Str)
  /-- The call `rpcClient.SayHello(ctx, &hello.HelloRequest(Name: name))`. -/
  | sayHello (name : String)
  /-- The call `log.Printf(format, args...)`. -/
  | logPrintf (format : String) (args : List FmtArg)
  /-- The wait `<-time.After(d)`, `d` in nanoseconds. -/
  | after (d : Int)
  /-- The deferred `cancel()`. -/
  | cancel
  /-- The deferred `consumer.Destroy()`. -/
  | consumerDestroy
  deriving DecidableEq, Repr

/-- What the external libraries answer during a run. -/
structure Env where
  /-- The error of `api.NewConsumerAPIByConfig` (`none` for nil). -/
  newConsumerAPIByConfig : Option GoError
  /-- The error of `grpc.DialContext` (`none` for nil). -/
  dialContext : Option GoError
  /-- The response and error of the `SayHello` call made at loop index `i`. -/
  sayHello : Int → Option Str × Option GoError

/-- The three actions of one iteration of the loop of `main` at index `i`: the
call, the log line with the index, the response and the error, and the wait. -/
def loopBody (env : Env) (i : Int) : List Event :=
  [.sayHello "polaris",
    .logPrintf "send message, index (%d) resp1 (%v), err(%v)"
      [.int i, .resp (env.sayHello i).1, .err (env.sayHello i).2],
    .after (1500 * Millisecond)]

/-- The loop `for i := 0; i < sendCount; i++` of `main`, from index `i` on. -/
def callLoop (env : Env) (sendCount : Int) (i : Int) : List Event :=
  if i < sendCount then loopBody env i ++ callLoop env sendCount (i + 1)
  else []
termination_by (sendCount - i).toNat
decreasing_by omega

/-- The configuration object `main` builds before `api.NewConsumerAPIByConfig`. -/
def sdkConfiguration : Configuration :=
  ⟨["127.0.0.1:8090"], 2 * Second, false,
    ["config.DefaultServiceRouterDstMeta", "config.DefaultServiceRouterRuleBased"]⟩

/-- The `polaris.Conf` value `main` hands to `polaris.Init`; `SyncInterval` is
the 64-bit product `time.Second * time.Duration(sendInterval)`. -/
def polarisConf (a : Args) : Conf :=
  ⟨wrapInt64 (Second * a.sendInterval), a.metadata,
    ⟨a.namespace_, a.service, [("flag".toList, "test".toList)]⟩, ["naming_", "tracing_"]⟩

/-- The function `main`: the trace of its external actions and how it ends. The
deferred `cancel()` and `consumer.Destroy()` run at the return and at the
panic, not at a `log.Fatalf`. -/
def main (env : Env) (osArgs : List Str) : List Event × Outcome Unit :=
  match processArgs osArgs with
  | .fatal f => ([], .fatal f)
  | .panic e => ([], .panic e)
  | .ret a =>
    match env.newConsumerAPIByConfig with
    | some err =>
      ([.newConsumerAPIByConfig sdkConfiguration],
        .fatal ⟨"api.NewConsumerAPIByConfig err(%v)", [.err (some err)]⟩)
    | none =>
      match env.dialContext with
      | some err =>
        ([.newConsumerAPIByConfig sdkConfiguration, .polarisInit (polarisConf a),
          .dialContext ("polaris://".toList ++ a.target), .cancel, .consumerDestroy],
          .panic err)
      | none =>
        ([.newConsumerAPIByConfig sdkConfiguration, .polarisInit (polarisConf a),
          .dialContext ("polaris://".toList ++ a.target)] ++
          callLoop env a.sendCount 0 ++ [.cancel, .consumerDestroy], .ret ())

/-- Whether the event is a call into the SDK or the network: the SDK
construction, the resolver registration, the dial or a `SayHello` call. -/
def Event.isNetworkAction : Event → Bool
  | .newConsumerAPIByConfig _ => true
  | .polarisInit _ => true
  | .dialContext _ => true
  | .sayHello _ => true
  | _ => false

/-- Whether the event is a `SayHello` call. -/
def Event.isSayHello : Event → Bool
  | .sayHello _ => true
  | _ => false

/-- The index a log line of the loop reports, if the event is one. -/
def Event.loggedIndex : Event → Option Int
  | .logPrintf _ (.int i :: _) => some i
  | _ => none

/-- The duration of the wait, if the event is one. -/
def Event.delay : Event → Option Int
  | .after d => some d
  | _ => none

/-- Whether the event belongs to the call loop: a call, a log line or a wait. -/
def Event.isLoopEvent : Event → Bool
  | .sayHello _ => true
  | .logPrintf _ _ => true
  | .after _ => true
  | _ => false

/-- The event with the `SyncInterval` of a `polaris.Init` call set to `d`. -/
def Event.withSyncInterval (d : Int) : Event → Event
  | .polarisInit conf => .polarisInit { conf with SyncInterval := d }
  | e => e

/-- The `SyncInterval` passed to `polaris.Init`, if the event is that call. -/
def Event.syncInterval : Event → Option Int
  | .polarisInit conf => some conf.SyncInterval
  | _ => none

/-! ## Sample runs -/

/-- Answers of the libraries for a run in which the SDK construction and the
dial succeed and the calls succeed at even indices and fail at odd ones. -/
def sampleEnv : Env :=
  ⟨none, none, fun i =>
    if i % 2 = 0 then (some "hello".toList, none) else (none, some (.external "rpc error"))⟩

/-- A command line with all six arguments and one more. -/
def sampleArgs : List Str :=
  ["rpcClient".toList, "ns".toList, "svc".toList, "Test/a".toList, "2".toList, "3".toList,
    "k:v".toList, "extra".toList]

/-- The arguments of `sampleArgs` after the program name. -/
def sampleParams : List Str :=
  ["ns".toList, "svc".toList, "Test/a".toList, "2".toList, "3".toList, "k:v".toList,
    "extra".toList]

/-- Four arguments after the program name. -/
def shortArgs : List Str :=
  ["ns".toList, "svc".toList, "Test/a".toList, "1".toList]

/-- A command line with the send count `-1`. -/
def negativeCountArgs : List Str :=
  ["rpcClient".toList, "ns".toList, "svc".toList, "Test/a".toList, "-1".toList, "3".toList]

/-- A command line with the send interval `9223372037`. -/
def bigIntervalArgs : List Str :=
  ["rpcClient".toList, "ns".toList, "svc".toList, "Test/a".toList, "0".toList,
    "9223372037".toList]

/-! ## Specification-side definitions -/

/-- The characters of a service name in the documented pattern. -/
def isNameChar (c : Char) : Prop :=
  ('A' ≤ c ∧ c ≤ 'Z') ∨ ('a' ≤ c ∧ c ≤ 'z') ∨ ('0' ≤ c ∧ c ≤ '9') ∨
    c = '_' ∨ c = ':' ∨ c = '.' ∨ c = '-'

/-- The four environment literals of the documented pattern. -/
def environments : List Str :=
  ["Development".toList, "Production".toList, "Pre-release".toList, "Test".toList]

/-- The language of the documented pattern: an environment literal, one `/`,
then 1 to 128 name characters, and nothing else. -/
def TargetSpec (t : Str) : Prop :=
  ∃ env ∈ environments, ∃ name : Str,
    t = env ++ '/' :: name ∧ 1 ≤ name.length ∧ name.length ≤ 128 ∧ ∀ c ∈ name, isNameChar c

/-- A token `parseMetadata` rejects: not empty and not exactly one `:`. -/
def malformed (tok : Str) : Bool :=
  decide (tok ≠ [] ∧ tok.count ':' ≠ 1)

/-- The token `k:v` of a pair. -/
def pairToken (p : Str × Str) : Str := p.1 ++ ':' :: p.2

/-- The value of the last pair of key `k` in the list, if there is one. -/
def lastValue (pairs : List (Str × Str)) (k : Str) : Option Str :=
  ((pairs.filter (fun p => p.1 = k)).getLast?).map Prod.snd

/-- The map after the assignments `m[k] = v` for the pairs, in order. -/
def putAll (pairs : List (Str × Str)) (m : GoMap) : GoMap :=
  pairs.foldl (fun acc p => acc.set p.1 p.2) m

/-- The value of a string of decimal digits. -/
def digitsValue (ds : Str) : Nat :=
  ds.foldl (fun n c => n * 10 + (c.toNat - 48)) 0

/-- A string without its sign, if it has one. -/
def unsignedPart : Str → Str
  | '+' :: ds => ds
  | '-' :: ds => ds
  | s => s

/-- The integer a signed string of digits stands for. -/
def intValue : Str → Int
  | '-' :: ds => -(digitsValue ds : Int)
  | s => (digitsValue (unsignedPart s) : Int)

/-- An optionally signed, non-empty string of base-10 digits whose value is in
the range of a 64-bit `int`. -/
def IsIntLiteral (s : Str) : Prop :=
  unsignedPart s ≠ [] ∧ (∀ c ∈ unsignedPart s, c.isDigit = true) ∧
    -(2 ^ 63 : Int) ≤ intValue s ∧ intValue s ≤ 2 ^ 63 - 1

/-! ## Facts about `Split` -/

theorem Split_ne_nil (s : Str) (sep : Char) : Split s sep ≠ [] := by
  induction s with
  | nil => simp [Split]
  | cons c cs ih =>
    unfold Split
    split
    · simp
    · split <;> simp

theorem Split_append_sep (a b : Str) (sep : Char) :
    Split (a ++ sep :: b) sep = Split a sep ++ Split b sep := by
  induction a with
  | nil => simp [Split]
  | cons c cs ih =>
    by_cases h : c = sep
    · simp [Split, h, ih]
    · have hne := Split_ne_nil cs sep
      cases hs : Split cs sep with
      | nil => exact absurd hs hne
      | cons t ts => simp [Split, h, ih, hs]

theorem Split_of_not_mem (a : Str) (sep : Char) (h : sep ∉ a) : Split a sep = [a] := by
  induction a with
  | nil => simp [Split]
  | cons c cs ih =>
    have hc : c ≠ sep := fun e => h (by simp [e])
    have hcs : sep ∉ cs := fun e => h (by simp [e])
    simp [Split, hc, ih hcs]

theorem length_Split (s : Str) (sep : Char) : (Split s sep).length = s.count sep + 1 := by
  induction s with
  | nil => simp [Split]
  | cons c cs ih =>
    by_cases h : c = sep
    · simp [Split, h, ih]
    · have hne := Split_ne_nil cs sep
      cases hs : Split cs sep with
      | nil => exact absurd hs hne
      | cons t ts =>
        rw [hs] at ih
        simp [Split, h, hs, List.count_cons] at ih ⊢
        omega

/-! ## Facts about `parseMetadata` -/

theorem loop_nil_cons (rest : List Str) (m : GoMap) :
    parseMetadata.loop ([] :: rest) m = parseMetadata.loop rest m := by
  simp [parseMetadata.loop]

theorem loop_cons_malformed (tok : Str) (rest : List Str) (m : GoMap)
    (h : malformed tok = true) :
    parseMetadata.loop (tok :: rest) m = (none, some (.errorf "invalid kv pair str %s" tok)) := by
  simp only [malformed, decide_eq_true_eq] at h
  have h1 : tok.length ≠ 0 := by simpa using h.1
  have h2 : (Split tok ':').length ≠ 2 := by rw [length_Split]; omega
  simp [parseMetadata.loop, h1, h2]

theorem loop_cons_wellformed (tok : Str) (rest : List Str) (m : GoMap)
    (hne : tok ≠ []) (h : malformed tok = false) :
    parseMetadata.loop (tok :: rest) m =
      parseMetadata.loop rest
        (m.set ((Split tok ':').getD 0 []) ((Split tok ':').getD 1 [])) := by
  have h1 : tok.length ≠ 0 := by simpa using hne
  have hc : tok.count ':' = 1 := by
    simp only [malformed, decide_eq_false_iff_not, not_and, not_not] at h
    exact h hne
  have h2 : (Split tok ':').length = 2 := by rw [length_Split]; omega
  rw [parseMetadata.loop]
  simp [h1, h2]

theorem loop_append_nil (toks : List Str) (m : GoMap) :
    parseMetadata.loop (toks ++ [[]]) m = parseMetadata.loop toks m := by
  induction toks generalizing m with
  | nil => simp [parseMetadata.loop]
  | cons t ts ih =>
    rw [List.cons_append, parseMetadata.loop, parseMetadata.loop]
    simp only [ih]

theorem loop_append_nil_cons (l1 l2 : List Str) (m : GoMap) :
    parseMetadata.loop (l1 ++ [] :: l2) m = parseMetadata.loop (l1 ++ l2) m := by
  induction l1 generalizing m with
  | nil => simp [parseMetadata.loop]
  | cons t ts ih =>
    rw [List.cons_append, List.cons_append, parseMetadata.loop, parseMetadata.loop]
    simp only [ih]

theorem loop_find (toks : List Str) (m : GoMap) :
    (∀ tok, toks.find? malformed = some tok →
      parseMetadata.loop toks m = (none, some (.errorf "invalid kv pair str %s" tok))) ∧
    (toks.find? malformed = none → ∃ m1, parseMetadata.loop toks m = (some m1, none)) := by
  induction toks generalizing m with
  | nil => simp [parseMetadata.loop]
  | cons t ts ih =>
    by_cases hb : malformed t = true
    · simp [List.find?, hb, loop_cons_malformed t ts m hb]
    · have hb1 : malformed t = false := by simpa using hb
      by_cases hne : t = []
      · subst hne
        simp only [List.find?, hb1, loop_nil_cons]
        exact ih m
      · simp only [List.find?, hb1, loop_cons_wellformed t ts m hne hb1]
        exact ih _

theorem parseMetadata_outcome (s : Str) :
    ((parseMetadata s).2 ≠ none ↔ ∃ tok ∈ Split s ',', tok ≠ [] ∧ tok.count ':' ≠ 1) ∧
    ((parseMetadata s).2 ≠ none ↔ (parseMetadata s).1 = none) ∧
    (∀ tok, (Split s ',').find? malformed = some tok →
      parseMetadata s = (none, some (.errorf "invalid kv pair str %s" tok))) := by
  have hl := loop_find (Split s ',') []
  refine ⟨?_, ?_, hl.1⟩
  · cases hf : (Split s ',').find? malformed with
    | none =>
      obtain ⟨m1, hm⟩ := hl.2 hf
      have hall := List.find?_eq_none.mp hf
      simp only [parseMetadata, hm, ne_eq, not_true_eq_false, false_iff, not_exists, not_and]
      intro tok htok hne hc
      exact hall tok htok (by simp [malformed, hne, hc])
    | some tok =>
      have hm := hl.1 tok hf
      have hmem := List.mem_of_find?_eq_some hf
      have hbad := List.find?_some hf
      simp only [malformed, decide_eq_true_eq] at hbad
      simp only [parseMetadata, hm, ne_eq, reduceCtorEq, not_false_eq_true, true_iff]
      exact ⟨tok, hmem, hbad⟩
  · cases hf : (Split s ',').find? malformed with
    | none =>
      obtain ⟨m1, hm⟩ := hl.2 hf
      simp [parseMetadata, hm]
    | some tok =>
      simp [parseMetadata, hl.1 tok hf]

/-- C3: `parseMetadata` returns an error exactly when some non-empty token of
the split on `,` does not hold exactly one `:`; with an error the map is nil,
without one a map is returned; the error is the format error of the first such
token from the left; `"k1:v1:extra"` fails with that error. -/
theorem parseMetadata_fails_iff_malformed (s : Str) :
    ((parseMetadata s).2 ≠ none ↔ ∃ tok ∈ Split s ',', tok ≠ [] ∧ tok.count ':' ≠ 1) ∧
    ((parseMetadata s).2 ≠ none ↔ (parseMetadata s).1 = none) ∧
    (∀ tok, (Split s ',').find? malformed = some tok →
      parseMetadata s = (none, some (.errorf "invalid kv pair str %s" tok))) ∧
    parseMetadata "k1:v1:extra".toList =
      (none, some (.errorf "invalid kv pair str %s" "k1:v1:extra".toList)) :=
  ⟨(parseMetadata_outcome s).1, (parseMetadata_outcome s).2.1, (parseMetadata_outcome s).2.2,
    by decide⟩

/-- C4: empty tokens do not change the outcome of `parseMetadata`: a trailing
comma, a leading comma or a doubled comma gives the same map or the same error;
the empty string and `",,"` give the empty map. -/
theorem parseMetadata_skips_empty_tokens (s : Str) :
    parseMetadata (s ++ [',']) = parseMetadata s ∧
    parseMetadata (',' :: s) = parseMetadata s ∧
    (∀ a b : Str, parseMetadata (a ++ ',' :: ',' :: b) = parseMetadata (a ++ ',' :: b)) ∧
    parseMetadata [] = (some [], none) ∧
    parseMetadata ",,".toList = (some [], none) := by
  refine ⟨?_, ?_, ?_, by decide, by decide⟩
  · simp only [parseMetadata, Split_append_sep]
    simpa [Split] using loop_append_nil (Split s ',') []
  · simp [parseMetadata, Split, parseMetadata.loop]
  · intro a b
    simp only [parseMetadata, Split_append_sep]
    simpa [Split] using loop_append_nil_cons (Split a ',') (Split b ',') []

theorem get_append_singleton (m : GoMap) (k v k1 : Str) :
    GoMap.get (m ++ [(k, v)]) k1 =
      match GoMap.get m k1 with
      | some w => some w
      | none => if k = k1 then some v else none := by
  induction m with
  | nil => simp [GoMap.get]
  | cons e m ih =>
    by_cases h : e.1 = k1
    · simp [GoMap.get, h]
    · simp [GoMap.get, h, ih]

theorem get_filter_ne (m : GoMap) (k k1 : Str) :
    GoMap.get (m.filter (fun e => e.1 ≠ k)) k1 = if k = k1 then none else GoMap.get m k1 := by
  induction m with
  | nil => simp [GoMap.get]
  | cons e m ih =>
    rw [List.filter_cons]
    by_cases h : e.1 = k
    · rw [if_neg (by simp [h]), ih]
      by_cases h1 : k = k1
      · simp [h1]
      · have : ¬ e.1 = k1 := fun h2 => h1 (h ▸ h2)
        simp [h1, GoMap.get, this]
    · rw [if_pos (by simp [h]), GoMap.get, ih]
      by_cases h1 : k = k1
      · have : ¬ e.1 = k1 := fun h2 => h (h2.trans h1.symm)
        simp [h1, GoMap.get, this]
      · simp [h1, GoMap.get]

theorem get_set (m : GoMap) (k v k1 : Str) :
    (m.set k v).get k1 = if k = k1 then some v else m.get k1 := by
  rw [GoMap.set, get_append_singleton, get_filter_ne]
  by_cases h : k = k1
  · simp [h]
  · simp only [h, if_false]
    cases GoMap.get m k1 <;> rfl

theorem nodup_keys_set (m : GoMap) (k v : Str) (h : (m.map Prod.fst).Nodup) :
    ((m.set k v).map Prod.fst).Nodup := by
  rw [GoMap.set, List.map_append, List.nodup_append]
  refine ⟨?_, by simp, ?_⟩
  · exact (List.Nodup.sublist ((List.filter_sublist m).map Prod.fst) h)
  · intro a ha hb
    simp only [List.map_cons, List.map_nil, List.mem_singleton] at hb
    subst hb
    simp only [List.mem_map, List.mem_filter] at ha
    obtain ⟨e, ⟨_, he⟩, rfl⟩ := ha
    simp at he

theorem mem_keys_iff_get (m : GoMap) (k : Str) :
    k ∈ m.map Prod.fst ↔ GoMap.get m k ≠ none := by
  induction m with
  | nil => simp [GoMap.get]
  | cons e m ih =>
    by_cases h : e.1 = k
    · simp [GoMap.get, h]
    · have h1 : ¬ k = e.1 := fun h2 => h h2.symm
      simp [GoMap.get, h, h1, ih]

theorem Split_pairToken (p : Str × Str) (h1 : ':' ∉ p.1) (h2 : ':' ∉ p.2) :
    Split (pairToken p) ':' = [p.1, p.2] := by
  rw [pairToken, Split_append_sep, Split_of_not_mem _ _ h1, Split_of_not_mem _ _ h2]
  rfl

theorem loop_pairs (pairs : List (Str × Str)) (m : GoMap)
    (h : ∀ p ∈ pairs, ':' ∉ p.1 ∧ ':' ∉ p.2) :
    parseMetadata.loop (pairs.map pairToken) m = (some (putAll pairs m), none) := by
  induction pairs generalizing m with
  | nil => simp [parseMetadata.loop, putAll]
  | cons p ps ih =>
    have hp := h p (by simp)
    have hs := Split_pairToken p hp.1 hp.2
    have hlen : (pairToken p).length ≠ 0 := by simp [pairToken]
    rw [List.map_cons, parseMetadata.loop]
    simp only [hlen, if_false, hs]
    simp only [List.length_cons, List.length_nil, ne_eq, not_true_eq_false, if_false]
    rw [ih _ (fun q hq => h q (by simp [hq]))]
    simp [putAll]

theorem lastValue_cons (p : Str × Str) (ps : List (Str × Str)) (k : Str) :
    lastValue (p :: ps) k =
      match lastValue ps k with
      | some v => some v
      | none => if p.1 = k then some p.2 else none := by
  unfold lastValue
  rw [List.filter_cons]
  by_cases h : p.1 = k
  · rw [if_pos (by simp [h])]
    cases hf : ps.filter (fun q => decide (q.1 = k)) with
    | nil => simp [h]
    | cons x l =>
      rw [List.getLast?_cons_cons]
      cases hl : (x :: l).getLast? with
      | none => simp at hl
      | some y => simp
  · rw [if_neg (by simp [h])]
    cases hl : (ps.filter (fun q => decide (q.1 = k))).getLast? <;> simp [h]

theorem get_putAll (pairs : List (Str × Str)) (m : GoMap) (k : Str) :
    (putAll pairs m).get k =
      match lastValue pairs k with
      | some v => some v
      | none => m.get k := by
  induction pairs generalizing m with
  | nil => simp [putAll, lastValue]
  | cons p ps ih =>
    have := ih (m.set p.1 p.2)
    simp only [putAll, List.foldl_cons] at this ⊢
    rw [this, lastValue_cons, get_set]
    cases lastValue ps k <;> simp
    split <;> simp

theorem nodup_keys_putAll (pairs : List (Str × Str)) (m : GoMap)
    (h : (m.map Prod.fst).Nodup) : ((putAll pairs m).map Prod.fst).Nodup := by
  induction pairs generalizing m with
  | nil => simpa [putAll] using h
  | cons p ps ih => exact ih _ (nodup_keys_set m p.1 p.2 h)

theorem Split_intercalate (toks : List Str) (hne : toks ≠ [])
    (h : ∀ t ∈ toks, ',' ∉ t) : Split (List.intercalate [','] toks) ',' = toks := by
  induction toks with
  | nil => exact absurd rfl hne
  | cons t ts ih =>
    cases ts with
    | nil =>
      simpa [List.intercalate, List.intersperse] using Split_of_not_mem t ',' (h t (by simp))
    | cons t1 ts1 =>
      have ih1 := ih (by simp) (fun u hu => h u (by simp [hu]))
      have ht := Split_of_not_mem t ',' (h t (by simp))
      have e : List.intercalate [','] (t :: t1 :: ts1) =
          t ++ ',' :: List.intercalate [','] (t1 :: ts1) := by
        simp [List.intercalate, List.intersperse]
      rw [e, Split_append_sep, ht, ih1]
      rfl

theorem lastValue_ne_none_iff (pairs : List (Str × Str)) (k : Str) :
    lastValue pairs k ≠ none ↔ k ∈ pairs.map Prod.fst := by
  induction pairs with
  | nil => simp [lastValue]
  | cons p ps ih =>
    rw [lastValue_cons]
    cases hl : lastValue ps k with
    | some v =>
      have : k ∈ ps.map Prod.fst := ih.mp (by simp [hl])
      simp [this]
    | none =>
      have : k ∉ ps.map Prod.fst := fun hk => (ih.mpr hk) hl
      by_cases h : p.1 = k
      · simp [h]
      · have h1 : ¬ k = p.1 := fun h2 => h h2.symm
        simp only [List.map_cons, List.mem_cons, h1, this, or_self, iff_false]
        simp [h]

/-- C2: for pairs whose keys and values hold neither `,` nor `:`,
`parseMetadata` of the tokens `k:v` joined with `,` succeeds with a map that
gives each key the value of its last pair and has exactly the keys of the
pairs, none twice; `"k1:v1,k2:v2"` gives the two entries `k1:v1`, `k2:v2`. -/
theorem parseMetadata_pairs (pairs : List (Str × Str))
    (h : ∀ p ∈ pairs, ',' ∉ p.1 ∧ ':' ∉ p.1 ∧ ',' ∉ p.2 ∧ ':' ∉ p.2) :
    (∃ m : GoMap,
      parseMetadata (List.intercalate [','] (pairs.map pairToken)) = (some m, none) ∧
      (∀ k, m.get k = lastValue pairs k) ∧
      (∀ k, k ∈ m.map Prod.fst ↔ k ∈ pairs.map Prod.fst) ∧
      (m.map Prod.fst).Nodup) ∧
    parseMetadata "k1:v1,k2:v2".toList =
      (some [("k1".toList, "v1".toList), ("k2".toList, "v2".toList)], none) := by
  refine ⟨⟨putAll pairs [], ?_, ?_, ?_, ?_⟩, by decide⟩
  · cases pairs with
    | nil => decide
    | cons p ps =>
      have hs : Split (List.intercalate [','] ((p :: ps).map pairToken)) ',' =
          (p :: ps).map pairToken := by
        apply Split_intercalate _ (by simp)
        intro t ht
        obtain ⟨q, hq, rfl⟩ := List.mem_map.mp ht
        have := h q hq
        simp [pairToken, this.1, this.2.2.1]
      rw [parseMetadata, hs]
      exact loop_pairs _ _ (fun q hq => ⟨(h q hq).2.1, (h q hq).2.2.2⟩)
  · intro k
    rw [get_putAll]
    cases lastValue pairs k <;> simp [GoMap.get]
  · intro k
    rw [mem_keys_iff_get, get_putAll, ← lastValue_ne_none_iff]
    cases lastValue pairs k <;> simp [GoMap.get]
  · exact nodup_keys_putAll pairs [] (by simp)

/-- Witness of C2 at the pairs `(k1, v1)`, `(k1, v2)`, `(, )`. -/
theorem parseMetadata_pairs_witness :
    (∀ p ∈ [("k1".toList, "v1".toList), ("k1".toList, "v2".toList), ([], [])],
      ',' ∉ p.1 ∧ ':' ∉ p.1 ∧ ',' ∉ p.2 ∧ ':' ∉ p.2) ∧
    ((∃ m : GoMap,
      parseMetadata (List.intercalate [',']
        ([("k1".toList, "v1".toList), ("k1".toList, "v2".toList), ([], [])].map pairToken)) =
          (some m, none) ∧
      (∀ k, m.get k =
        lastValue [("k1".toList, "v1".toList), ("k1".toList, "v2".toList), ([], [])] k) ∧
      (∀ k, k ∈ m.map Prod.fst ↔
        k ∈ [("k1".toList, "v1".toList), ("k1".toList, "v2".toList), ([], [])].map Prod.fst) ∧
      (m.map Prod.fst).Nodup) ∧
    parseMetadata "k1:v1,k2:v2".toList =
      (some [("k1".toList, "v1".toList), ("k2".toList, "v2".toList)], none)) :=
  ⟨by decide, parseMetadata_pairs _ (by decide)⟩

/-! ## Facts about `regexPolaris` -/

theorem mem_run_str (w : Str) (pos : Nat) (s : Str) (x : Nat × Str) :
    x ∈ (Regex.str w).run pos s ↔ ∃ rest, s = w ++ rest ∧ x = (pos + w.length, rest) := by
  induction w generalizing pos s with
  | nil => simp [Regex.str, Regex.run]
  | cons c cs ih =>
    cases s with
    | nil => simp [Regex.str, Regex.run]
    | cons d rest =>
      by_cases h : d = c
      · subst h
        simp [Regex.str, Regex.run, ih, Nat.add_assoc, Nat.add_comm 1]
      · have h1 : ¬ c = d := fun e => h e.symm
        simp [Regex.str, Regex.run, h, h1]

theorem mem_repRun_cls (ranges : List (Char × Char)) (min max pos : Nat) (s : Str)
    (x : Nat × Str) :
    x ∈ repRun ((Regex.cls ranges).run) min max pos s ↔
      ∃ k, min ≤ k ∧ k ≤ max ∧ k ≤ s.length ∧ (∀ c ∈ s.take k, inClass ranges c = true) ∧
        x = (pos + k, s.drop k) := by
  induction max generalizing min pos s with
  | zero =>
    by_cases hm : min = 0
    · subst hm
      simp [repRun]
    · simp only [repRun, hm, if_false, List.not_mem_nil, false_iff]
      rintro ⟨k, h1, h2, -⟩
      omega
  | succ n ih =>
    rw [repRun, List.mem_append, List.mem_flatMap]
    constructor
    · rintro (h | ⟨y, hy, hx⟩)
      · by_cases hm : min = 0
        · subst hm
          simp only [if_true, List.mem_singleton] at h
          exact ⟨0, by simp [h]⟩
        · simp [hm] at h
      · cases s with
        | nil => simp [Regex.run] at hy
        | cons d rest =>
          by_cases hd : inClass ranges d = true
          · simp only [Regex.run, hd, if_true, List.mem_singleton] at hy
            subst hy
            obtain ⟨k, h1, h2, h3, h4, h5⟩ := (ih _ _ _).mp hx
            refine ⟨k + 1, by omega, by omega, by simpa using h3, ?_, ?_⟩
            · intro c hc
              simp only [List.take_succ_cons, List.mem_cons] at hc
              rcases hc with rfl | hc
              · exact hd
              · exact h4 c hc
            · simp [h5, Nat.add_assoc, Nat.add_comm 1]
          · simp [Regex.run, hd] at hy
    · rintro ⟨k, h1, h2, h3, h4, h5⟩
      cases k with
      | zero =>
        left
        have hm : min = 0 := by omega
        simp [hm, h5]
      | succ j =>
        right
        cases s with
        | nil => simp at h3
        | cons d rest =>
          have hd : inClass ranges d = true := h4 d (by simp)
          refine ⟨(pos + 1, rest), by simp [Regex.run, hd], ?_⟩
          refine (ih _ _ _).mpr ⟨j, by omega, by omega, by simpa using h3, ?_, ?_⟩
          · intro c hc
            exact h4 c (by simp [hc])
          · simp [h5, Nat.add_assoc, Nat.add_comm 1]

theorem inClass_name_iff (c : Char) :
    inClass [('a', 'z'), ('A', 'Z'), ('0', '9'), ('_', '_'), (':', ':'), ('.', '.'),
      ('-', '-')] c = true ↔ isNameChar c := by
  have e : ∀ a : Char, c = a ↔ a ≤ c ∧ c ≤ a := fun a =>
    ⟨fun h => h ▸ ⟨le_refl _, le_refl _⟩, fun h => le_antisymm h.2 h.1⟩
  unfold isNameChar
  rw [e '_', e ':', e '.', e '-']
  simp only [inClass, List.any_cons, List.any_nil, Bool.or_false, Bool.or_eq_true,
    Bool.and_eq_true, decide_eq_true_eq]
  exact or_left_comm

theorem mem_run_cat (a b : Regex) (pos : Nat) (s : Str) (x : Nat × Str) :
    x ∈ (Regex.cat a b).run pos s ↔ ∃ y ∈ a.run pos s, x ∈ b.run y.1 y.2 := by
  simp [Regex.run, List.mem_flatMap]

theorem mem_run_alt (a b : Regex) (pos : Nat) (s : Str) (x : Nat × Str) :
    x ∈ (Regex.alt a b).run pos s ↔ x ∈ a.run pos s ∨ x ∈ b.run pos s := by
  simp [Regex.run]

theorem mem_run_group (r : Regex) (pos : Nat) (s : Str) (x : Nat × Str) :
    x ∈ (Regex.group r).run pos s ↔ x ∈ r.run pos s := by
  simp [Regex.run]

theorem mem_run_beginText (pos : Nat) (s : Str) (x : Nat × Str) :
    x ∈ Regex.beginText.run pos s ↔ pos = 0 ∧ x = (pos, s) := by
  by_cases h : pos = 0 <;> simp [Regex.run, h]

theorem mem_run_endText (pos : Nat) (s : Str) (x : Nat × Str) :
    x ∈ Regex.endText.run pos s ↔ s = [] ∧ x = (pos, s) := by
  by_cases h : s = [] <;> simp [Regex.run, h]

theorem mem_run_lit (c : Char) (pos : Nat) (s : Str) (x : Nat × Str) :
    x ∈ (Regex.lit c).run pos s ↔ ∃ rest, s = c :: rest ∧ x = (pos + 1, rest) := by
  cases s with
  | nil => simp [Regex.run]
  | cons d rest =>
    by_cases h : d = c
    · simp [Regex.run, h]
    · simp [Regex.run, h]

theorem mem_run_rep_cls (ranges : List (Char × Char)) (min max pos : Nat) (s : Str)
    (x : Nat × Str) :
    x ∈ (Regex.rep (Regex.cls ranges) min max).run pos s ↔
      ∃ k, min ≤ k ∧ k ≤ max ∧ k ≤ s.length ∧ (∀ c ∈ s.take k, inClass ranges c = true) ∧
        x = (pos + k, s.drop k) := by
  rw [← mem_repRun_cls]
  simp [Regex.run]

theorem mem_run_regexPolaris (i : Nat) (s : Str) (x : Nat × Str) :
    x ∈ regexPolaris.run i s ↔
      i = 0 ∧ ∃ env ∈ environments, ∃ name : Str,
        s = env ++ '/' :: name ∧ 1 ≤ name.length ∧ name.length ≤ 128 ∧
          (∀ c ∈ name, isNameChar c) ∧ x = (env.length + 1 + name.length, []) := by
  simp only [regexPolaris, mem_run_cat, mem_run_alt, mem_run_group, mem_run_beginText,
    mem_run_endText, mem_run_lit, mem_run_rep_cls, mem_run_str, inClass_name_iff]
  constructor
  · rintro ⟨y, ⟨hi, rfl⟩, z, hz, w, ⟨r1, hr1, rfl⟩, v, ⟨k, hk1, hk2, hk3, hk4, rfl⟩, hx1, rfl⟩
    have henv : ∃ env ∈ environments, ∃ rest, s = env ++ rest ∧ z = (i + env.length, rest) := by
      rcases hz with ⟨r, h1, h2⟩ | ⟨r, h1, h2⟩ | ⟨r, h1, h2⟩ | ⟨r, h1, h2⟩
      · exact ⟨_, by simp [environments], r, h1, h2⟩
      · exact ⟨_, by simp [environments], r, h1, h2⟩
      · exact ⟨_, by simp [environments], r, h1, h2⟩
      · exact ⟨_, by simp [environments], r, h1, h2⟩
    obtain ⟨env, henv, rest, hs, rfl⟩ := henv
    simp only at hr1 hk3 hk4 hx1 ⊢
    subst hr1
    have hlen : k = r1.length := by
      have := List.drop_eq_nil_iff.mp hx1
      omega
    subst hlen
    rw [List.take_length] at hk4
    refine ⟨hi, env, henv, r1, hs, hk1, hk2, hk4, ?_⟩
    simp [hi, hx1]
  · rintro ⟨hi, env, henv, name, hs, h1, h2, h3, rfl⟩
    refine ⟨(i, s), ⟨hi, rfl⟩, (i + env.length, '/' :: name), ?_,
      (i + env.length + 1, name), ⟨name, rfl, rfl⟩,
      (i + env.length + 1 + name.length, []), ⟨name.length, h1, h2, le_refl _, ?_, ?_⟩, rfl, ?_⟩
    · simp only [environments, List.mem_cons, List.mem_singleton, List.not_mem_nil,
        or_false] at henv
      rcases henv with rfl | rfl | rfl | rfl
      · exact Or.inl ⟨_, hs, rfl⟩
      · exact Or.inr (Or.inl ⟨_, hs, rfl⟩)
      · exact Or.inr (Or.inr (Or.inl ⟨_, hs, rfl⟩))
      · exact Or.inr (Or.inr (Or.inr ⟨_, hs, rfl⟩))
    · simpa using h3
    · simp
    · simp [hi]

theorem matchString_regexPolaris_iff (t : Str) :
    regexPolaris.MatchString t = true ↔ TargetSpec t := by
  simp only [Regex.MatchString, List.any_eq_true, List.mem_range, Bool.not_eq_true,
    Bool.not_eq_eq_eq_not, Bool.not_true, List.isEmpty_eq_false_iff_exists_mem,
    mem_run_regexPolaris, TargetSpec]
  constructor
  · rintro ⟨i, _, x, rfl, env, henv, name, hs, h1, h2, h3, _⟩
    exact ⟨env, henv, name, by simpa using hs, h1, h2, h3⟩
  · rintro ⟨env, henv, name, hs, h1, h2, h3⟩
    exact ⟨0, by omega, _, rfl, env, henv, name, by simpa using hs, h1, h2, h3, rfl⟩

theorem not_isNameChar_newline : ¬ isNameChar '\n' := by
  unfold isNameChar
  decide

theorem not_isNameChar_slash : ¬ isNameChar '/' := by
  unfold isNameChar
  decide

theorem count_slash_environment (env : Str) (h : env ∈ environments) : env.count '/' = 0 := by
  simp only [environments, List.mem_cons, List.mem_singleton, List.not_mem_nil,
    or_false] at h
  rcases h with rfl | rfl | rfl | rfl <;> decide

/-- C1: `regexPolaris.MatchString` accepts exactly the strings made of one of
the four environment literals, one `/` and 1 to 128 name characters; so a
string ending in a newline, a 129-character name and a string with a second
`/` are rejected; `Development/order-service` is accepted, `dev/order` is not. -/
theorem regexPolaris_accepts_documented_language :
    (∀ t : Str, regexPolaris.MatchString t = true ↔ TargetSpec t) ∧
    (∀ t : Str, regexPolaris.MatchString (t ++ ['\n']) = false) ∧
    regexPolaris.MatchString ("Test/".toList ++ List.replicate 128 'a') = true ∧
    regexPolaris.MatchString ("Test/".toList ++ List.replicate 129 'a') = false ∧
    (∀ t : Str, regexPolaris.MatchString t = true → t.count '/' = 1) ∧
    regexPolaris.MatchString "Development/order-service".toList = true ∧
    regexPolaris.MatchString "dev/order".toList = false := by
  refine ⟨matchString_regexPolaris_iff, ?_, ?_, ?_, ?_, by decide, by decide⟩
  · intro t
    rw [← Bool.not_eq_true, matchString_regexPolaris_iff]
    rintro ⟨env, -, name, hs, h1, -, h3⟩
    have hr := congrArg List.reverse hs
    simp only [List.reverse_append, List.reverse_cons, List.reverse_nil, List.nil_append,
      List.singleton_append, List.append_assoc] at hr
    cases hn : name.reverse with
    | nil =>
      have : name = [] := by simpa using hn
      simp [this] at h1
    | cons b l =>
      rw [hn] at hr
      simp only [List.cons_append, List.cons.injEq] at hr
      have hb : b ∈ name := by
        rw [← List.mem_reverse, hn]
        simp
      exact not_isNameChar_newline (hr.1 ▸ h3 b hb)
  · rw [matchString_regexPolaris_iff]
    refine ⟨"Test".toList, by simp [environments], List.replicate 128 'a', rfl, by simp,
      by simp, ?_⟩
    intro c hc
    rw [List.eq_of_mem_replicate hc]
    unfold isNameChar
    decide
  · rw [← Bool.not_eq_true, matchString_regexPolaris_iff]
    rintro ⟨env, henv, name, hs, -, h2, h3⟩
    simp only [environments, List.mem_cons, List.mem_singleton, List.not_mem_nil,
      or_false] at henv
    rcases henv with rfl | rfl | rfl | rfl
    · have h := congrArg List.head? hs
      rw [List.head?_append_of_ne_nil _ (by decide),
        List.head?_append_of_ne_nil _ (by decide)] at h
      exact absurd h (by decide)
    · have h := congrArg List.head? hs
      rw [List.head?_append_of_ne_nil _ (by decide),
        List.head?_append_of_ne_nil _ (by decide)] at h
      exact absurd h (by decide)
    · have h := congrArg List.head? hs
      rw [List.head?_append_of_ne_nil _ (by decide),
        List.head?_append_of_ne_nil _ (by decide)] at h
      exact absurd h (by decide)
    · have e : name = List.replicate 129 'a' := by
        simpa using hs.symm
      rw [e] at h2
      simp at h2
  · intro t ht
    obtain ⟨env, henv, name, hs, -, -, h3⟩ := (matchString_regexPolaris_iff t).mp ht
    have hn : name.count '/' = 0 := by
      rw [List.count_eq_zero]
      intro hm
      exact not_isNameChar_slash (h3 _ hm)
    rw [hs, List.count_append, List.count_cons_self, count_slash_environment env henv, hn]

/-! ## Facts about `Atoi` -/

theorem foldl_digits_ge (ds : Str) (n : Nat) :
    n ≤ ds.foldl (fun n c => n * 10 + (c.toNat - 48)) n := by
  induction ds generalizing n with
  | nil => simp
  | cons c cs ih =>
    simp only [List.foldl_cons]
    have := ih (n * 10 + (c.toNat - 48))
    omega

theorem loop_digits_ok (ds : Str) (n : Nat) (hd : ∀ c ∈ ds, c.isDigit = true)
    (hv : ds.foldl (fun n c => n * 10 + (c.toNat - 48)) n ≤ 2 ^ 64 - 1) :
    ParseUint.loop ds n = (ds.foldl (fun n c => n * 10 + (c.toNat - 48)) n, none) := by
  induction ds generalizing n with
  | nil => simp [ParseUint.loop]
  | cons c cs ih =>
    have hc : c.isDigit = true := hd c (by simp)
    simp only [List.foldl_cons] at hv ⊢
    have hge := foldl_digits_ge cs (n * 10 + (c.toNat - 48))
    have h1 : ¬ n ≥ (2 ^ 64 - 1) / 10 + 1 := by omega
    have h2 : ¬ n * 10 + (c.toNat - 48) > 2 ^ 64 - 1 := by omega
    rw [ParseUint.loop]
    simp only [hc, if_true, h1, h2, if_false]
    exact ih _ (fun d hd1 => hd d (by simp [hd1])) hv

theorem loop_error (ds : Str) (n : Nat) (hn : n ≤ 2 ^ 64 - 1)
    (h : ¬ ((∀ c ∈ ds, c.isDigit = true) ∧
      ds.foldl (fun n c => n * 10 + (c.toNat - 48)) n ≤ 2 ^ 64 - 1)) :
    ParseUint.loop ds n = (2 ^ 64 - 1, some ErrRange) ∨
      ParseUint.loop ds n = (0, some ErrSyntax) := by
  induction ds generalizing n with
  | nil =>
    exfalso
    apply h
    simpa using hn
  | cons c cs ih =>
    rw [ParseUint.loop]
    by_cases hc : c.isDigit = true
    · simp only [hc, if_true]
      by_cases h1 : n ≥ (2 ^ 64 - 1) / 10 + 1
      · rw [if_pos h1]
        exact Or.inl rfl
      · by_cases h2 : n * 10 + (c.toNat - 48) > 2 ^ 64 - 1
        · rw [if_neg h1, if_pos h2]
          exact Or.inl rfl
        · rw [if_neg h1, if_neg h2]
          apply ih _ (by omega)
          rintro ⟨hd, hv⟩
          apply h
          refine ⟨?_, by simpa using hv⟩
          intro d hd1
          rcases List.mem_cons.mp hd1 with rfl | hd2
          · exact hc
          · exact hd d hd2
    · simp [hc]

theorem ErrSyntax_ne_ErrRange : ErrSyntax ≠ ErrRange := by decide

theorem ParseUint_cases (ds : Str) :
    (ds ≠ [] ∧ (∀ c ∈ ds, c.isDigit = true) ∧ digitsValue ds ≤ 2 ^ 64 - 1 ∧
        ParseUint ds = (digitsValue ds, none)) ∨
      (¬ (ds ≠ [] ∧ (∀ c ∈ ds, c.isDigit = true) ∧ digitsValue ds ≤ 2 ^ 64 - 1) ∧
        (ParseUint ds = (2 ^ 64 - 1, some ErrRange) ∨ ParseUint ds = (0, some ErrSyntax))) := by
  by_cases hne : ds = []
  · right
    simp [hne, ParseUint]
  · by_cases h : (∀ c ∈ ds, c.isDigit = true) ∧ digitsValue ds ≤ 2 ^ 64 - 1
    · left
      refine ⟨hne, h.1, h.2, ?_⟩
      rw [ParseUint, if_neg hne]
      exact loop_digits_ok ds 0 h.1 h.2
    · right
      refine ⟨fun hh => h hh.2, ?_⟩
      rw [ParseUint, if_neg hne]
      exact loop_error ds 0 (by omega) h

theorem Atoi_of_unsigned (s ds : Str) (neg : Bool) (hs : s ≠ [])
    (hneg : decide (s.head? = some '-') = neg)
    (hds : (if s.head? = some '+' ∨ s.head? = some '-' then s.tail else s) = ds) :
    ((Atoi s).2 = none ↔
      ds ≠ [] ∧ (∀ c ∈ ds, c.isDigit = true) ∧
        (if neg = true then digitsValue ds ≤ 2 ^ 63 else digitsValue ds ≤ 2 ^ 63 - 1)) ∧
    ((Atoi s).2 = none →
      (Atoi s).1 = if neg = true then -(digitsValue ds : Int) else (digitsValue ds : Int)) := by
  rw [Atoi, if_neg hs]
  simp only [hneg, hds, intSize]
  rcases ParseUint_cases ds with ⟨h1, h2, h3, h4⟩ | ⟨h1, h4 | h4⟩
  · rw [h4]
    cases neg with
    | false =>
      by_cases hv : 9223372036854775808 ≤ digitsValue ds
      · have hv1 : ¬ digitsValue ds ≤ 9223372036854775807 := by omega
        simp [hv, hv1]
      · have hv1 : digitsValue ds ≤ 9223372036854775807 := by omega
        simp [hv, hv1, h1]
        exact h2
    | true =>
      by_cases hv : 9223372036854775808 < digitsValue ds
      · have hv1 : ¬ digitsValue ds ≤ 9223372036854775808 := by omega
        simp [hv, hv1]
      · have hv1 : digitsValue ds ≤ 9223372036854775808 := by omega
        simp [hv, hv1, h1]
        exact h2
  · rw [h4]
    have hn : ¬ (ds ≠ [] ∧ (∀ c ∈ ds, c.isDigit = true) ∧
        (if neg = true then digitsValue ds ≤ 2 ^ 63 else digitsValue ds ≤ 2 ^ 63 - 1)) := by
      rintro ⟨a, b, c⟩
      apply h1
      refine ⟨a, b, ?_⟩
      cases neg <;> simp at c <;> omega
    cases neg <;> simp [hn, ErrSyntax_ne_ErrRange] <;> simpa using hn
  · rw [h4]
    have hn : ¬ (ds ≠ [] ∧ (∀ c ∈ ds, c.isDigit = true) ∧
        (if neg = true then digitsValue ds ≤ 2 ^ 63 else digitsValue ds ≤ 2 ^ 63 - 1)) := by
      rintro ⟨a, b, c⟩
      apply h1
      refine ⟨a, b, ?_⟩
      cases neg <;> simp at c <;> omega
    cases neg <;> simp [hn, ErrSyntax_ne_ErrRange] <;> simpa using hn

theorem unsignedPart_other (c : Char) (cs : Str) (h1 : c ≠ '+') (h2 : c ≠ '-') :
    unsignedPart (c :: cs) = c :: cs := by
  unfold unsignedPart
  split
  · rename_i h
    exact absurd (List.cons.inj h).1 h1
  · rename_i h
    exact absurd (List.cons.inj h).1 h2
  · rfl

theorem intValue_other (c : Char) (cs : Str) (h1 : c ≠ '+') (h2 : c ≠ '-') :
    intValue (c :: cs) = (digitsValue (c :: cs) : Int) := by
  unfold intValue
  split
  · rename_i h
    exact absurd (List.cons.inj h).1 h2
  · rw [unsignedPart_other c cs h1 h2]

theorem intValue_plus (cs : Str) : intValue ('+' :: cs) = (digitsValue cs : Int) := by
  unfold intValue
  split
  · rename_i h
    exact absurd (List.cons.inj h).1 (by decide)
  · rfl

theorem intValue_minus (cs : Str) : intValue ('-' :: cs) = -(digitsValue cs : Int) := rfl

theorem Atoi_spec (s : Str) :
    ((Atoi s).2 = none ↔ IsIntLiteral s) ∧ ((Atoi s).2 = none → (Atoi s).1 = intValue s) := by
  cases s with
  | nil => simp [Atoi, IsIntLiteral, unsignedPart]
  | cons c cs =>
    by_cases h1 : c = '+'
    · subst h1
      have h := Atoi_of_unsigned ('+' :: cs) cs false (by simp) (by simp) (by simp)
      refine ⟨h.1.trans ?_, fun h0 => (h.2 h0).trans ?_⟩
      · simp only [IsIntLiteral, unsignedPart, intValue_plus, Bool.false_eq_true, if_false]
        constructor
        · rintro ⟨a, b, c⟩
          exact ⟨a, b, by omega, by omega⟩
        · rintro ⟨a, b, c, d⟩
          exact ⟨a, b, by omega⟩
      · simp [intValue_plus]
    · by_cases h2 : c = '-'
      · subst h2
        have h := Atoi_of_unsigned ('-' :: cs) cs true (by simp) (by simp) (by simp)
        refine ⟨h.1.trans ?_, fun h0 => (h.2 h0).trans ?_⟩
        · simp only [IsIntLiteral, unsignedPart, intValue_minus, if_true]
          constructor
          · rintro ⟨a, b, c⟩
            exact ⟨a, b, by omega, by omega⟩
          · rintro ⟨a, b, c, d⟩
            exact ⟨a, b, by omega⟩
        · simp [intValue_minus]
      · have h := Atoi_of_unsigned (c :: cs) (c :: cs) false (by simp)
          (by simp [h2]) (by simp [h1, h2])
        refine ⟨h.1.trans ?_, fun h0 => (h.2 h0).trans ?_⟩
        · simp only [IsIntLiteral, unsignedPart_other c cs h1 h2, intValue_other c cs h1 h2,
            Bool.false_eq_true, if_false]
          constructor
          · rintro ⟨a, b, c⟩
            exact ⟨a, b, by omega, by omega⟩
          · rintro ⟨a, b, c, d⟩
            exact ⟨a, b, by omega⟩
        · simp [intValue_other c cs h1 h2]

/-! ## Facts about `processArgs` -/

theorem processArgs_short (prog : Str) (params : List Str) (h : params.length < 5) :
    processArgs (prog :: params) = .fatal ⟨usageFormat, [.str prog]⟩ := by
  simp [processArgs, h]

theorem processArgs_badTarget (prog : Str) (params : List Str) (h5 : ¬ params.length < 5)
    (hm : regexPolaris.MatchString (params.getD 2 []) = false) :
    processArgs (prog :: params) = .fatal ⟨"using invalid target: %s", [.str prog]⟩ := by
  simp only [processArgs, List.length_cons, List.drop_succ_cons, List.drop_zero]
  rw [if_neg (by omega), if_neg h5, if_pos hm]
  rfl

theorem processArgs_badCount (prog : Str) (params : List Str) (h5 : ¬ params.length < 5)
    (hm : ¬ regexPolaris.MatchString (params.getD 2 []) = false)
    (hc : (Atoi (params.getD 3 [])).2 ≠ none) :
    processArgs (prog :: params) =
      .fatal ⟨"fail to convert sendCount %s to int, err %v",
        [.str (params.getD 1 []), .err (Atoi (params.getD 3 [])).2]⟩ := by
  simp only [processArgs, List.length_cons, List.drop_succ_cons, List.drop_zero]
  rw [if_neg (by omega), if_neg h5, if_neg hm, if_pos hc]

theorem processArgs_badInterval (prog : Str) (params : List Str) (h5 : ¬ params.length < 5)
    (hm : ¬ regexPolaris.MatchString (params.getD 2 []) = false)
    (hc : ¬ (Atoi (params.getD 3 [])).2 ≠ none)
    (hi : (Atoi (params.getD 4 [])).2 ≠ none) :
    processArgs (prog :: params) =
      .fatal ⟨"fail to convert sendInterval %s to int, err %v",
        [.str (params.getD 2 []), .err (Atoi (params.getD 4 [])).2]⟩ := by
  simp only [processArgs, List.length_cons, List.drop_succ_cons, List.drop_zero]
  rw [if_neg (by omega), if_neg h5, if_neg hm, if_neg hc, if_pos hi]

theorem processArgs_badMetadata (prog : Str) (params : List Str) (h5 : ¬ params.length < 5)
    (hm : ¬ regexPolaris.MatchString (params.getD 2 []) = false)
    (hc : ¬ (Atoi (params.getD 3 [])).2 ≠ none)
    (hi : ¬ (Atoi (params.getD 4 [])).2 ≠ none)
    (h6 : params.length > 5) (hmd : (parseMetadata (params.getD 5 [])).2 ≠ none) :
    processArgs (prog :: params) =
      .fatal ⟨"fail to parse metadata string %s, err %v",
        [.str (params.getD 3 []), .err (parseMetadata (params.getD 5 [])).2]⟩ := by
  simp only [processArgs, List.length_cons, List.drop_succ_cons, List.drop_zero]
  rw [if_neg (by omega), if_neg h5, if_neg hm, if_neg hc, if_neg hi, if_pos h6, if_pos hmd]

theorem processArgs_ok6 (prog : Str) (params : List Str) (h5 : ¬ params.length < 5)
    (hm : ¬ regexPolaris.MatchString (params.getD 2 []) = false)
    (hc : ¬ (Atoi (params.getD 3 [])).2 ≠ none)
    (hi : ¬ (Atoi (params.getD 4 [])).2 ≠ none)
    (h6 : params.length > 5) (hmd : ¬ (parseMetadata (params.getD 5 [])).2 ≠ none) :
    processArgs (prog :: params) =
      .ret ⟨params.getD 0 [], params.getD 1 [], params.getD 2 [],
        (Atoi (params.getD 3 [])).1, (Atoi (params.getD 4 [])).1,
        (parseMetadata (params.getD 5 [])).1⟩ := by
  simp only [processArgs, List.length_cons, List.drop_succ_cons, List.drop_zero]
  rw [if_neg (by omega), if_neg h5, if_neg hm, if_neg hc, if_neg hi, if_pos h6, if_neg hmd]

theorem processArgs_ok5 (prog : Str) (params : List Str) (h5 : ¬ params.length < 5)
    (hm : ¬ regexPolaris.MatchString (params.getD 2 []) = false)
    (hc : ¬ (Atoi (params.getD 3 [])).2 ≠ none)
    (hi : ¬ (Atoi (params.getD 4 [])).2 ≠ none)
    (h6 : ¬ params.length > 5) :
    processArgs (prog :: params) =
      .ret ⟨params.getD 0 [], params.getD 1 [], params.getD 2 [],
        (Atoi (params.getD 3 [])).1, (Atoi (params.getD 4 [])).1, none⟩ := by
  simp only [processArgs, List.length_cons, List.drop_succ_cons, List.drop_zero]
  rw [if_neg (by omega), if_neg h5, if_neg hm, if_neg hc, if_neg hi, if_neg h6]

/-- The five checks of `processArgs` in the order they are made, each with the
format of the fatal message it ends in, and the two normal returns. -/
theorem processArgs_cases (prog : Str) (params : List Str) :
    (params.length < 5 ∧ processArgs (prog :: params) = .fatal ⟨usageFormat, [.str prog]⟩) ∨
    (5 ≤ params.length ∧ regexPolaris.MatchString (params.getD 2 []) = false ∧
      processArgs (prog :: params) = .fatal ⟨"using invalid target: %s", [.str prog]⟩) ∨
    (5 ≤ params.length ∧ regexPolaris.MatchString (params.getD 2 []) = true ∧
      ¬ IsIntLiteral (params.getD 3 []) ∧
      processArgs (prog :: params) =
        .fatal ⟨"fail to convert sendCount %s to int, err %v",
          [.str (params.getD 1 []), .err (Atoi (params.getD 3 [])).2]⟩) ∨
    (5 ≤ params.length ∧ regexPolaris.MatchString (params.getD 2 []) = true ∧
      IsIntLiteral (params.getD 3 []) ∧ ¬ IsIntLiteral (params.getD 4 []) ∧
      processArgs (prog :: params) =
        .fatal ⟨"fail to convert sendInterval %s to int, err %v",
          [.str (params.getD 2 []), .err (Atoi (params.getD 4 [])).2]⟩) ∨
    (5 < params.length ∧ regexPolaris.MatchString (params.getD 2 []) = true ∧
      IsIntLiteral (params.getD 3 []) ∧ IsIntLiteral (params.getD 4 []) ∧
      (parseMetadata (params.getD 5 [])).2 ≠ none ∧
      processArgs (prog :: params) =
        .fatal ⟨"fail to parse metadata string %s, err %v",
          [.str (params.getD 3 []), .err (parseMetadata (params.getD 5 [])).2]⟩) ∨
    (5 < params.length ∧ regexPolaris.MatchString (params.getD 2 []) = true ∧
      IsIntLiteral (params.getD 3 []) ∧ IsIntLiteral (params.getD 4 []) ∧
      (parseMetadata (params.getD 5 [])).2 = none ∧
      processArgs (prog :: params) =
        .ret ⟨params.getD 0 [], params.getD 1 [], params.getD 2 [],
          intValue (params.getD 3 []), intValue (params.getD 4 []),
          (parseMetadata (params.getD 5 [])).1⟩) ∨
    (params.length = 5 ∧ regexPolaris.MatchString (params.getD 2 []) = true ∧
      IsIntLiteral (params.getD 3 []) ∧ IsIntLiteral (params.getD 4 []) ∧
      processArgs (prog :: params) =
        .ret ⟨params.getD 0 [], params.getD 1 [], params.getD 2 [],
          intValue (params.getD 3 []), intValue (params.getD 4 []), none⟩) := by
  by_cases h5 : params.length < 5
  · exact Or.inl ⟨h5, processArgs_short prog params h5⟩
  right
  by_cases hm : regexPolaris.MatchString (params.getD 2 []) = false
  · exact Or.inl ⟨by omega, hm, processArgs_badTarget prog params h5 hm⟩
  right
  have hm1 : regexPolaris.MatchString (params.getD 2 []) = true := by simpa using hm
  by_cases hc : (Atoi (params.getD 3 [])).2 ≠ none
  · exact Or.inl ⟨by omega, hm1, fun h => hc ((Atoi_spec _).1.mpr h),
      processArgs_badCount prog params h5 hm hc⟩
  right
  have hc1 : (Atoi (params.getD 3 [])).2 = none := by simpa using hc
  have hc2 := (Atoi_spec _).1.mp hc1
  have hc3 := (Atoi_spec _).2 hc1
  by_cases hi : (Atoi (params.getD 4 [])).2 ≠ none
  · exact Or.inl ⟨by omega, hm1, hc2, fun h => hi ((Atoi_spec _).1.mpr h),
      processArgs_badInterval prog params h5 hm hc hi⟩
  right
  have hi1 : (Atoi (params.getD 4 [])).2 = none := by simpa using hi
  have hi2 := (Atoi_spec _).1.mp hi1
  have hi3 := (Atoi_spec _).2 hi1
  by_cases h6 : params.length > 5
  · by_cases hmd : (parseMetadata (params.getD 5 [])).2 ≠ none
    · exact Or.inl ⟨h6, hm1, hc2, hi2, hmd,
        processArgs_badMetadata prog params h5 hm hc hi h6 hmd⟩
    · refine Or.inr (Or.inl ⟨h6, hm1, hc2, hi2, by simpa using hmd, ?_⟩)
      rw [processArgs_ok6 prog params h5 hm hc hi h6 hmd, hc3, hi3]
  · refine Or.inr (Or.inr ⟨by omega, hm1, hc2, hi2, ?_⟩)
    rw [processArgs_ok5 prog params h5 hm hc hi h6, hc3, hi3]

/-- C5: `processArgs` ends in `log.Fatalf` exactly when there are fewer than 5
arguments, or the target does not match the pattern, or the send count or the
send interval is no integer literal in the `int` range, or a sixth argument is
there and `parseMetadata` fails on it, and it returns normally otherwise; the
checks are made in that order, the message being that of the first one
violated. -/
theorem processArgs_fatal_iff_invalid (prog : Str) (params : List Str) :
    ((∃ f, processArgs (prog :: params) = .fatal f) ↔
      (params.length < 5 ∨ regexPolaris.MatchString (params.getD 2 []) = false ∨
        ¬ IsIntLiteral (params.getD 3 []) ∨ ¬ IsIntLiteral (params.getD 4 []) ∨
        (5 < params.length ∧ (parseMetadata (params.getD 5 [])).2 ≠ none))) ∧
    ((∃ f, processArgs (prog :: params) = .fatal f) ∨
      (∃ a, processArgs (prog :: params) = .ret a)) ∧
    (params.length < 5 →
      ∃ args, processArgs (prog :: params) = .fatal ⟨usageFormat, args⟩) ∧
    (5 ≤ params.length → regexPolaris.MatchString (params.getD 2 []) = false →
      ∃ args, processArgs (prog :: params) = .fatal ⟨"using invalid target: %s", args⟩) ∧
    (5 ≤ params.length → regexPolaris.MatchString (params.getD 2 []) = true →
      ¬ IsIntLiteral (params.getD 3 []) →
      ∃ args, processArgs (prog :: params) =
        .fatal ⟨"fail to convert sendCount %s to int, err %v", args⟩) ∧
    (5 ≤ params.length → regexPolaris.MatchString (params.getD 2 []) = true →
      IsIntLiteral (params.getD 3 []) → ¬ IsIntLiteral (params.getD 4 []) →
      ∃ args, processArgs (prog :: params) =
        .fatal ⟨"fail to convert sendInterval %s to int, err %v", args⟩) ∧
    (5 < params.length → regexPolaris.MatchString (params.getD 2 []) = true →
      IsIntLiteral (params.getD 3 []) → IsIntLiteral (params.getD 4 []) →
      (parseMetadata (params.getD 5 [])).2 ≠ none →
      ∃ args, processArgs (prog :: params) =
        .fatal ⟨"fail to parse metadata string %s, err %v", args⟩) := by
  have hc := processArgs_cases prog params
  generalize processArgs (prog :: params) = r at hc ⊢
  generalize regexPolaris.MatchString (params.getD 2 []) = m at hc ⊢
  generalize IsIntLiteral (params.getD 3 []) = i3 at hc ⊢
  generalize IsIntLiteral (params.getD 4 []) = i4 at hc ⊢
  generalize (Atoi (params.getD 3 [])).2 = e3 at hc ⊢
  generalize (Atoi (params.getD 4 [])).2 = e4 at hc ⊢
  generalize (parseMetadata (params.getD 5 [])).2 = e5 at hc ⊢
  generalize params.length = n at hc ⊢
  rcases hc with
    ⟨h1, rfl⟩ | ⟨h1, h2, rfl⟩ | ⟨h1, h2, h3, rfl⟩ | ⟨h1, h2, h3, h4, rfl⟩ |
    ⟨h1, h2, h3, h4, h5, rfl⟩ | ⟨h1, h2, h3, h4, h5, rfl⟩ | ⟨h1, h2, h3, h4, rfl⟩
  · refine ⟨⟨fun _ => Or.inl h1, fun _ => ⟨_, rfl⟩⟩, Or.inl ⟨_, rfl⟩, fun _ => ⟨_, rfl⟩,
      ?_, ?_, ?_, ?_⟩ <;> intro h <;> omega
  · refine ⟨⟨fun _ => Or.inr (Or.inl h2), fun _ => ⟨_, rfl⟩⟩, Or.inl ⟨_, rfl⟩, ?_,
      fun _ _ => ⟨_, rfl⟩, ?_, ?_, ?_⟩
    · intro h; omega
    all_goals intro _ h; rw [h2] at h; exact absurd h (by decide)
  · refine ⟨⟨fun _ => Or.inr (Or.inr (Or.inl h3)), fun _ => ⟨_, rfl⟩⟩, Or.inl ⟨_, rfl⟩, ?_, ?_,
      fun _ _ _ => ⟨_, rfl⟩, ?_, ?_⟩
    · intro h; omega
    · intro _ h; rw [h2] at h; exact absurd h (by decide)
    all_goals intro _ _ h; exact absurd h h3
  · refine ⟨⟨fun _ => Or.inr (Or.inr (Or.inr (Or.inl h4))), fun _ => ⟨_, rfl⟩⟩,
      Or.inl ⟨_, rfl⟩, ?_, ?_, ?_, fun _ _ _ _ => ⟨_, rfl⟩, ?_⟩
    · intro h; omega
    · intro _ h; rw [h2] at h; exact absurd h (by decide)
    · intro _ _ h; exact absurd h3 h
    · intro _ _ _ h; exact absurd h h4
  · refine ⟨⟨fun _ => Or.inr (Or.inr (Or.inr (Or.inr ⟨h1, h5⟩))), fun _ => ⟨_, rfl⟩⟩,
      Or.inl ⟨_, rfl⟩, ?_, ?_, ?_, ?_, fun _ _ _ _ _ => ⟨_, rfl⟩⟩
    · intro h; omega
    · intro _ h; rw [h2] at h; exact absurd h (by decide)
    · intro _ _ h; exact absurd h3 h
    · intro _ _ _ h; exact absurd h4 h
  · refine ⟨⟨?_, ?_⟩, Or.inr ⟨_, rfl⟩, ?_, ?_, ?_, ?_, ?_⟩
    · rintro ⟨f, hf⟩
      exact absurd hf (by simp)
    · rintro (h | h | h | h | ⟨_, h⟩)
      · omega
      · rw [h2] at h; exact absurd h (by decide)
      · exact absurd h3 h
      · exact absurd h4 h
      · exact absurd h5 h
    · intro h; omega
    · intro _ h; rw [h2] at h; exact absurd h (by decide)
    · intro _ _ h; exact absurd h3 h
    · intro _ _ _ h; exact absurd h4 h
    · intro _ _ _ _ h; exact absurd h5 h
  · refine ⟨⟨?_, ?_⟩, Or.inr ⟨_, rfl⟩, ?_, ?_, ?_, ?_, ?_⟩
    · rintro ⟨f, hf⟩
      exact absurd hf (by simp)
    · rintro (h | h | h | h | ⟨h, _⟩)
      · omega
      · rw [h2] at h; exact absurd h (by decide)
      · exact absurd h3 h
      · exact absurd h4 h
      · omega
    · intro h; omega
    · intro _ h; rw [h2] at h; exact absurd h (by decide)
    · intro _ _ h; exact absurd h3 h
    · intro _ _ _ h; exact absurd h4 h
    · intro h; omega

theorem getD_take_six (params : List Str) (i : Nat) (h : i < 6) :
    (params.take 6).getD i [] = params.getD i [] := by
  simp only [List.getD_eq_getElem?_getD, List.getElem?_take, h, if_true]

theorem processArgs_take_six (prog : Str) (params : List Str) :
    processArgs (prog :: params.take 6) = processArgs (prog :: params) := by
  have l1 : ((params.take 6).length < 5) = (params.length < 5) := by
    simp only [List.length_take, eq_iff_iff]
    omega
  have l2 : ((params.take 6).length > 5) = (params.length > 5) := by
    simp only [List.length_take, eq_iff_iff]
    omega
  simp only [processArgs, List.length_cons, List.drop_succ_cons, List.drop_zero,
    getD_take_six params 0 (by omega), getD_take_six params 1 (by omega),
    getD_take_six params 2 (by omega), getD_take_six params 3 (by omega),
    getD_take_six params 4 (by omega), getD_take_six params 5 (by omega), l1, l2]
  have z1 : ¬ (List.take 6 params).length + 1 < 1 := by omega
  have z2 : ¬ params.length + 1 < 1 := by omega
  rw [if_neg z1, if_neg z2]
  rfl

/-- C9: when `processArgs` returns, its results are the first three arguments
unchanged, the integer values of the fourth and fifth, and the metadata: nil
for exactly 5 arguments, the map of `parseMetadata` on the sixth for 6 or
more; arguments after the sixth change nothing. -/
theorem processArgs_returns_positional (prog : Str) (params : List Str) (a : Args)
    (h : processArgs (prog :: params) = .ret a) :
    5 ≤ params.length ∧
    a.namespace_ = params.getD 0 [] ∧ a.service = params.getD 1 [] ∧
    a.target = params.getD 2 [] ∧
    IsIntLiteral (params.getD 3 []) ∧ a.sendCount = intValue (params.getD 3 []) ∧
    IsIntLiteral (params.getD 4 []) ∧ a.sendInterval = intValue (params.getD 4 []) ∧
    (params.length = 5 → a.metadata = none) ∧
    (6 ≤ params.length →
      parseMetadata (params.getD 5 []) = (a.metadata, none) ∧ a.metadata ≠ none) ∧
    (∀ params1 : List Str, params1.take 6 = params.take 6 →
      processArgs (prog :: params1) = .ret a) := by
  have hx : ∀ params1 : List Str, params1.take 6 = params.take 6 →
      processArgs (prog :: params1) = .ret a := by
    intro params1 ht
    rw [← processArgs_take_six, ht, processArgs_take_six, h]
  rcases processArgs_cases prog params with
    ⟨h1, e⟩ | ⟨h1, h2, e⟩ | ⟨h1, h2, h3, e⟩ | ⟨h1, h2, h3, h4, e⟩ |
    ⟨h1, h2, h3, h4, h5, e⟩ | ⟨h1, h2, h3, h4, h5, e⟩ | ⟨h1, h2, h3, h4, e⟩
  · rw [e] at h; exact absurd h (by simp)
  · rw [e] at h; exact absurd h (by simp)
  · rw [e] at h; exact absurd h (by simp)
  · rw [e] at h; exact absurd h (by simp)
  · rw [e] at h; exact absurd h (by simp)
  · rw [e] at h
    have ha := (Outcome.ret.inj h).symm
    subst ha
    refine ⟨by omega, rfl, rfl, rfl, h3, rfl, h4, rfl, fun h => by omega, fun _ => ⟨?_, ?_⟩, hx⟩
    · exact Prod.ext rfl h5
    · exact ((parseMetadata_outcome (params.getD 5 [])).2.1.not.mp (by simpa using h5))
  · rw [e] at h
    have ha := (Outcome.ret.inj h).symm
    subst ha
    exact ⟨by omega, rfl, rfl, rfl, h3, rfl, h4, rfl, fun _ => rfl, fun h => by omega, hx⟩

/-! ## Facts about `main` -/

theorem callLoop_done (env : Env) (sendCount i : Int) (h : ¬ i < sendCount) :
    callLoop env sendCount i = [] := by
  rw [callLoop, if_neg h]

theorem callLoop_step (env : Env) (sendCount i : Int) (h : i < sendCount) :
    callLoop env sendCount i = loopBody env i ++ callLoop env sendCount (i + 1) := by
  rw [callLoop, if_pos h]

theorem callLoop_eq_range_aux (env : Env) (sendCount : Int) (n : Nat) (i : Int)
    (h : (sendCount - i).toNat = n) :
    callLoop env sendCount i =
      (List.range n).flatMap (fun k => loopBody env (i + (k : Int))) := by
  induction n generalizing i with
  | zero =>
    rw [callLoop_done env sendCount i (by omega)]
    rfl
  | succ m ih =>
    rw [callLoop_step env sendCount i (by omega), ih (i + 1) (by omega),
      List.range_succ_eq_map, List.flatMap_cons, List.flatMap_map]
    congr 1
    · simp
    · apply List.flatMap_congr
      intro k _
      simp only [Function.comp, Nat.succ_eq_add_one, Nat.cast_add, Nat.cast_one]
      congr 1
      omega

/-- The loop of `main` makes its three actions for the indices `0`, `1`, ...
below `sendCount`, in order, and nothing when `sendCount ≤ 0`. -/
theorem callLoop_eq_range (env : Env) (sendCount : Int) :
    callLoop env sendCount 0 =
      (List.range sendCount.toNat).flatMap (fun k => loopBody env (k : Int)) := by
  rw [callLoop_eq_range_aux env sendCount sendCount.toNat 0 (by simp)]
  simp

theorem main_of_ret (env : Env) (osArgs : List Str) (a : Args)
    (h : processArgs osArgs = .ret a) (hc : env.newConsumerAPIByConfig = none)
    (hd : env.dialContext = none) :
    main env osArgs =
      ([.newConsumerAPIByConfig sdkConfiguration, .polarisInit (polarisConf a),
        .dialContext ("polaris://".toList ++ a.target)] ++
        callLoop env a.sendCount 0 ++ [.cancel, .consumerDestroy], .ret ()) := by
  simp only [main, h, hc, hd]

theorem main_of_fatal (env : Env) (osArgs : List Str) (f : Fatal)
    (h : processArgs osArgs = .fatal f) : main env osArgs = ([], .fatal f) := by
  simp only [main, h]

theorem filter_isSayHello_loop (env : Env) (n : Nat) :
    (((List.range n).flatMap (fun k => loopBody env (k : Int))).filter
      Event.isSayHello).length = n := by
  induction n with
  | zero => rfl
  | succ m ih =>
    rw [List.range_succ, List.flatMap_append, List.filter_append, List.length_append, ih]
    simp [loopBody, Event.isSayHello]

theorem loggedIndex_loop (env : Env) (n : Nat) :
    ((List.range n).flatMap (fun k => loopBody env (k : Int))).filterMap Event.loggedIndex =
      (List.range n).map Int.ofNat := by
  induction n with
  | zero => rfl
  | succ m ih =>
    rw [List.range_succ, List.flatMap_append, List.filterMap_append, ih, List.map_append]
    simp [loopBody, Event.loggedIndex]

theorem delay_loop (env : Env) (n : Nat) :
    ((List.range n).flatMap (fun k => loopBody env (k : Int))).filterMap Event.delay =
      List.replicate n (1500 * Millisecond) := by
  induction n with
  | zero => rfl
  | succ m ih =>
    rw [List.range_succ, List.flatMap_append, List.filterMap_append, ih, List.replicate_succ']
    simp [loopBody, Event.delay]

/-- C8: with fewer than 5 arguments after the program name `main` ends in the
fatal usage message of `processArgs` and its trace holds no SDK construction,
no resolver registration, no dial and no `SayHello` call: it is empty. -/
theorem main_short_args_no_network (env : Env) (prog : Str) (params : List Str)
    (h : params.length < 5) :
    main env (prog :: params) = ([], .fatal ⟨usageFormat, [.str prog]⟩) ∧
    ∀ e ∈ (main env (prog :: params)).1, e.isNetworkAction = false := by
  have hm := main_of_fatal env _ _ (processArgs_short prog params h)
  refine ⟨hm, ?_⟩
  rw [hm]
  intro e he
  exact absurd he (List.not_mem_nil e)

/-- Witness of C8 at a command line of four arguments. -/
theorem main_short_args_no_network_witness :
    shortArgs.length < 5 ∧
    (main sampleEnv ("rpcClient".toList :: shortArgs) =
      ([], .fatal ⟨usageFormat, [.str "rpcClient".toList]⟩) ∧
    ∀ e ∈ (main sampleEnv ("rpcClient".toList :: shortArgs)).1, e.isNetworkAction = false) :=
  ⟨by decide, main_short_args_no_network sampleEnv "rpcClient".toList shortArgs (by decide)⟩

/-- C6, as the code has it: once the arguments are accepted and the SDK
construction and the dial have succeeded, `main` returns after making, whatever
the calls answer, one `SayHello` call for each index `0`, `1`, ... below
`sendCount`, logged in that order; their number is `sendCount` when it is not
negative and `0` when it is. -/
theorem main_call_count (env : Env) (osArgs : List Str) (a : Args)
    (h : processArgs osArgs = .ret a) (hc : env.newConsumerAPIByConfig = none)
    (hd : env.dialContext = none) :
    (main env osArgs).2 = .ret () ∧
    (main env osArgs).1 =
      [.newConsumerAPIByConfig sdkConfiguration, .polarisInit (polarisConf a),
        .dialContext ("polaris://".toList ++ a.target)] ++
        (List.range a.sendCount.toNat).flatMap (fun k => loopBody env (k : Int)) ++
        [.cancel, .consumerDestroy] ∧
    ((main env osArgs).1.filter Event.isSayHello).length = a.sendCount.toNat ∧
    (main env osArgs).1.filterMap Event.loggedIndex =
      (List.range a.sendCount.toNat).map Int.ofNat ∧
    (0 ≤ a.sendCount →
      (((main env osArgs).1.filter Event.isSayHello).length : Int) = a.sendCount) ∧
    (a.sendCount < 0 → ((main env osArgs).1.filter Event.isSayHello).length = 0) := by
  have hm := main_of_ret env osArgs a h hc hd
  rw [callLoop_eq_range] at hm
  have hn : ((main env osArgs).1.filter Event.isSayHello).length = a.sendCount.toNat := by
    rw [hm]
    simp only [List.filter_append, List.length_append, filter_isSayHello_loop]
    simp [Event.isSayHello]
  refine ⟨by rw [hm], by rw [hm], hn, ?_, ?_, ?_⟩
  · rw [hm]
    simp only [List.filterMap_append, loggedIndex_loop]
    simp [Event.loggedIndex]
  · intro h0
    rw [hn]
    omega
  · intro h0
    rw [hn]
    omega

/-- Witness of C6 (as the code has it) at a run with the send count 2. -/
theorem main_call_count_witness :
    processArgs sampleArgs =
      .ret ⟨"ns".toList, "svc".toList, "Test/a".toList, 2, 3, some [("k".toList, "v".toList)]⟩ ∧
    sampleEnv.newConsumerAPIByConfig = none ∧ sampleEnv.dialContext = none ∧
    (main sampleEnv sampleArgs).2 = .ret () ∧
    ((main sampleEnv sampleArgs).1.filter Event.isSayHello).length = 2 ∧
    (main sampleEnv sampleArgs).1.filterMap Event.loggedIndex = [0, 1] :=
  have h := main_call_count sampleEnv sampleArgs
    ⟨"ns".toList, "svc".toList, "Test/a".toList, 2, 3, some [("k".toList, "v".toList)]⟩
    (by decide) rfl rfl
  ⟨by decide, rfl, rfl, h.1, h.2.2.1, h.2.2.2.1⟩

/-- C6 fails as stated for a negative send count: with the accepted send count
`-1` the run makes no `SayHello` call, and 0 is not -1. -/
theorem main_negative_sendCount_counterexample :
    processArgs negativeCountArgs =
      .ret ⟨"ns".toList, "svc".toList, "Test/a".toList, -1, 3, none⟩ ∧
    (main sampleEnv negativeCountArgs).2 = .ret () ∧
    ((main sampleEnv negativeCountArgs).1.filter Event.isSayHello).length = 0 ∧
    ¬ ((((main sampleEnv negativeCountArgs).1.filter Event.isSayHello).length : Int) = -1) := by
  have hp : processArgs negativeCountArgs =
      .ret ⟨"ns".toList, "svc".toList, "Test/a".toList, -1, 3, none⟩ := by decide
  have hm := main_of_ret sampleEnv negativeCountArgs _ hp rfl rfl
  rw [callLoop_done sampleEnv (-1) 0 (by decide)] at hm
  refine ⟨hp, by rw [hm], ?_, ?_⟩
  · rw [hm]
    rfl
  · omega

theorem syncInterval_loop (env : Env) (n : Nat) :
    ((List.range n).flatMap (fun k => loopBody env (k : Int))).filterMap
      Event.syncInterval = [] := by
  induction n with
  | zero => rfl
  | succ m ih =>
    rw [List.range_succ, List.flatMap_append, List.filterMap_append, ih]
    simp [loopBody, Event.syncInterval]

theorem wrapInt64_of_small (x : Int) (h1 : -(2 ^ 63) ≤ x) (h2 : x < 2 ^ 63) :
    wrapInt64 x = x := by
  unfold wrapInt64
  omega

theorem processArgs_ret_eq (prog : Str) (params : List Str) (a : Args)
    (h : processArgs (prog :: params) = .ret a) :
    5 ≤ params.length ∧
    a = ⟨params.getD 0 [], params.getD 1 [], params.getD 2 [], intValue (params.getD 3 []),
      intValue (params.getD 4 []),
      if 5 < params.length then (parseMetadata (params.getD 5 [])).1 else none⟩ := by
  rcases processArgs_cases prog params with
    ⟨h1, e⟩ | ⟨h1, h2, e⟩ | ⟨h1, h2, h3, e⟩ | ⟨h1, h2, h3, h4, e⟩ |
    ⟨h1, h2, h3, h4, h5, e⟩ | ⟨h1, h2, h3, h4, h5, e⟩ | ⟨h1, h2, h3, h4, e⟩
  · rw [e] at h; exact absurd h (by simp)
  · rw [e] at h; exact absurd h (by simp)
  · rw [e] at h; exact absurd h (by simp)
  · rw [e] at h; exact absurd h (by simp)
  · rw [e] at h; exact absurd h (by simp)
  · rw [e] at h
    refine ⟨by omega, ?_⟩
    rw [if_pos h1]
    exact (Outcome.ret.inj h).symm
  · rw [e] at h
    refine ⟨by omega, ?_⟩
    rw [if_neg (by omega)]
    exact (Outcome.ret.inj h).symm

theorem getD_set_four_ne (params : List Str) (x : Str) (i : Nat) (h : 4 ≠ i) :
    (params.set 4 x).getD i [] = params.getD i [] := by
  simp only [List.getD_eq_getElem?_getD, List.getElem?_set_ne h]

theorem getD_set_four (params : List Str) (x : Str) (h : 5 ≤ params.length) :
    (params.set 4 x).getD 4 [] = x := by
  rw [List.getD_eq_getElem?_getD, List.getElem?_set_self (by omega)]
  rfl

theorem processArgs_set_interval (prog : Str) (params : List Str) (x : Str) (a1 a2 : Args)
    (h1 : processArgs (prog :: params) = .ret a1)
    (h2 : processArgs (prog :: params.set 4 x) = .ret a2) :
    a2 = { a1 with sendInterval := intValue x } := by
  obtain ⟨l1, e1⟩ := processArgs_ret_eq prog params a1 h1
  obtain ⟨l2, e2⟩ := processArgs_ret_eq prog (params.set 4 x) a2 h2
  rw [List.length_set] at e2
  rw [getD_set_four_ne params x 0 (by omega), getD_set_four_ne params x 1 (by omega),
    getD_set_four_ne params x 2 (by omega), getD_set_four_ne params x 3 (by omega),
    getD_set_four_ne params x 5 (by omega), getD_set_four params x l1] at e2
  rw [e2, e1]

/-- C7, as the code has it: for two accepted command lines that differ only in
the fifth argument and the same answers of the libraries, the runs end the
same way and make the same calls, log lines and waits, every wait being
1500 ms; the traces differ at most in the `SyncInterval` handed to
`polaris.Init`, which is the 64-bit product `time.Second * sendInterval`: it
is `sendInterval` seconds when `sendInterval` is between -9223372036 and
9223372036. -/
theorem sendInterval_only_sets_SyncInterval (env : Env) (prog : Str) (params : List Str)
    (x : Str) (a1 a2 : Args)
    (h1 : processArgs (prog :: params) = .ret a1)
    (h2 : processArgs (prog :: params.set 4 x) = .ret a2) :
    a2 = { a1 with sendInterval := intValue x } ∧
    (main env (prog :: params)).2 = (main env (prog :: params.set 4 x)).2 ∧
    (main env (prog :: params)).1.filter Event.isLoopEvent =
      (main env (prog :: params.set 4 x)).1.filter Event.isLoopEvent ∧
    (∀ d ∈ (main env (prog :: params)).1.filterMap Event.delay, d = 1500 * Millisecond) ∧
    1500 * Millisecond = 1500000000 ∧
    (∀ d : Int, (main env (prog :: params)).1.map (Event.withSyncInterval d) =
      (main env (prog :: params.set 4 x)).1.map (Event.withSyncInterval d)) ∧
    (∀ d ∈ (main env (prog :: params)).1.filterMap Event.syncInterval,
      d = wrapInt64 (Second * a1.sendInterval)) ∧
    (-9223372036 ≤ a1.sendInterval → a1.sendInterval ≤ 9223372036 →
      wrapInt64 (Second * a1.sendInterval) = a1.sendInterval * Second) := by
  have ha := processArgs_set_interval prog params x a1 a2 h1 h2
  have hw : -9223372036 ≤ a1.sendInterval → a1.sendInterval ≤ 9223372036 →
      wrapInt64 (Second * a1.sendInterval) = a1.sendInterval * Second := by
    intro l u
    rw [wrapInt64_of_small _ (by unfold Second; omega) (by unfold Second; omega)]
    unfold Second
    omega
  refine ⟨ha, ?_, ?_, ?_, by decide, ?_, ?_, hw⟩
  all_goals
    cases hc : env.newConsumerAPIByConfig with
    | some err => simp [main, h1, h2, hc, Event.isLoopEvent, Event.delay, Event.syncInterval,
        Event.withSyncInterval]
    | none =>
      cases hd : env.dialContext with
      | some err => simp [main, h1, h2, hc, hd, ha, Event.isLoopEvent, Event.delay,
          Event.syncInterval, Event.withSyncInterval, polarisConf]
      | none =>
        simp only [main, h1, h2, hc, hd, ha, callLoop_eq_range]
        try simp [List.filter_append, List.filterMap_append, delay_loop, syncInterval_loop,
          Event.isLoopEvent, Event.delay, Event.syncInterval, Event.withSyncInterval,
          polarisConf]

/-- Witness of C7 (as the code has it): the send interval `3` replaced by `7`. -/
theorem sendInterval_only_sets_SyncInterval_witness :
    processArgs ("rpcClient".toList :: sampleParams) =
      .ret ⟨"ns".toList, "svc".toList, "Test/a".toList, 2, 3, some [("k".toList, "v".toList)]⟩ ∧
    processArgs ("rpcClient".toList :: sampleParams.set 4 "7".toList) =
      .ret ⟨"ns".toList, "svc".toList, "Test/a".toList, 2, 7, some [("k".toList, "v".toList)]⟩ ∧
    (main sampleEnv ("rpcClient".toList :: sampleParams)).2 =
      (main sampleEnv ("rpcClient".toList :: sampleParams.set 4 "7".toList)).2 ∧
    (main sampleEnv ("rpcClient".toList :: sampleParams)).1.filter Event.isLoopEvent =
      (main sampleEnv ("rpcClient".toList :: sampleParams.set 4 "7".toList)).1.filter
        Event.isLoopEvent ∧
    (∀ d ∈ (main sampleEnv ("rpcClient".toList :: sampleParams)).1.filterMap Event.delay,
      d = 1500 * Millisecond) :=
  have h := sendInterval_only_sets_SyncInterval sampleEnv "rpcClient".toList sampleParams
    "7".toList
    ⟨"ns".toList, "svc".toList, "Test/a".toList, 2, 3, some [("k".toList, "v".toList)]⟩
    ⟨"ns".toList, "svc".toList, "Test/a".toList, 2, 7, some [("k".toList, "v".toList)]⟩
    (by decide) (by decide)
  ⟨by decide, by decide, h.2.1, h.2.2.1, h.2.2.2.1⟩

/-- C7 fails as stated for a large send interval: with the accepted send
interval `9223372037` the `SyncInterval` handed to `polaris.Init` is the
wrapped product -9223372036709551616 ns, not 9223372037 seconds. -/
theorem syncInterval_overflow_counterexample :
    processArgs bigIntervalArgs =
      .ret ⟨"ns".toList, "svc".toList, "Test/a".toList, 0, 9223372037, none⟩ ∧
    (main sampleEnv bigIntervalArgs).1.filterMap Event.syncInterval =
      [-9223372036709551616] ∧
    ¬ ((-9223372036709551616 : Int) = 9223372037 * Second) := by
  have hp : processArgs bigIntervalArgs =
      .ret ⟨"ns".toList, "svc".toList, "Test/a".toList, 0, 9223372037, none⟩ := by decide
  have hm := main_of_ret sampleEnv bigIntervalArgs _ hp rfl rfl
  rw [callLoop_done sampleEnv 0 0 (by decide)] at hm
  refine ⟨hp, ?_, by decide⟩
  rw [hm]
  decide

/-- Witness of C9 at a command line of seven arguments. -/
theorem processArgs_returns_positional_witness :
    processArgs ("rpcClient".toList :: sampleParams) =
      .ret ⟨"ns".toList, "svc".toList, "Test/a".toList, 2, 3, some [("k".toList, "v".toList)]⟩ ∧
    intValue (sampleParams.getD 3 []) = 2 ∧ intValue (sampleParams.getD 4 []) = 3 ∧
    parseMetadata (sampleParams.getD 5 []) = (some [("k".toList, "v".toList)], none) ∧
    (∀ params1 : List Str, params1.take 6 = sampleParams.take 6 →
      processArgs ("rpcClient".toList :: params1) =
        .ret ⟨"ns".toList, "svc".toList, "Test/a".toList, 2, 3,
          some [("k".toList, "v".toList)]⟩) :=
  have h := processArgs_returns_positional "rpcClient".toList sampleParams
    ⟨"ns".toList, "svc".toList, "Test/a".toList, 2, 3, some [("k".toList, "v".toList)]⟩
    (by decide)
  ⟨by decide, h.2.2.2.2.2.1.symm, h.2.2.2.2.2.2.2.1.symm, (h.2.2.2.2.2.2.2.2.2.1 (by decide)).1,
    h.2.2.2.2.2.2.2.2.2.2⟩

/-- C10, the code at rejected arguments: the target message is filled with the
program name, the send count message with the service, the send interval
message with the target and the metadata message with the send count, not with
the argument that was rejected. -/
theorem processArgs_diagnostics_name_other_arguments :
    processArgs ["rpcClient".toList, "ns".toList, "svc".toList, "dev/order".toList,
        "2".toList, "3".toList] =
      .fatal ⟨"using invalid target: %s", [.str "rpcClient".toList]⟩ ∧
    processArgs ["rpcClient".toList, "ns".toList, "svc".toList, "Test/a".toList,
        "two".toList, "3".toList] =
      .fatal ⟨"fail to convert sendCount %s to int, err %v",
        [.str "svc".toList, .err (some (.numError "Atoi" "two".toList ErrSyntax))]⟩ ∧
    processArgs ["rpcClient".toList, "ns".toList, "svc".toList, "Test/a".toList,
        "2".toList, "three".toList] =
      .fatal ⟨"fail to convert sendInterval %s to int, err %v",
        [.str "Test/a".toList, .err (some (.numError "Atoi" "three".toList ErrSyntax))]⟩ ∧
    processArgs ["rpcClient".toList, "ns".toList, "svc".toList, "Test/a".toList,
        "2".toList, "3".toList, "k1:v1:extra".toList] =
      .fatal ⟨"fail to parse metadata string %s, err %v",
        [.str "2".toList,
          .err (some (.errorf "invalid kv pair str %s" "k1:v1:extra".toList))]⟩ := by
  refine ⟨by decide, by decide, by decide, by decide⟩

end RpcClient
